import Mathlib

/-!
Verification of the GhostSQL storage and execution core.

This file is a shallow embedding, in Lean 4, of the parts of the
GhostSQL Go sources that the specification's claims talk about:

* the binary row codec (`internal/storage/encoding.go`),
* the slotted page (`internal/storage/slotted_page.go`),
* the table primitives and WHERE evaluation (`internal/storage/table.go`),
* vectors and distance functions (`internal/storage/vector.go`),
* the HNSW index (`internal/storage/hnsw.go`),
* the SQL executor's insert pipeline, joins, vector-search path and
  CREATE INDEX (`internal/executor/executor.go`).

Modelling conventions:

* Go byte slices and Go strings are modelled as `List Nat` with every
  element below 256 (a Go string is an arbitrary byte sequence; Go `len`
  is the byte length, Go string comparison is bytewise lexicographic).
* Machine integers are modelled as `Nat`/`Int` with explicit reduction
  modulo 2^w exactly where the Go code converts between widths.
* A `float64` value is modelled by its IEEE-754 bit pattern (a `Nat`
  below 2^64): the codec only moves those bits around, and
  `math.Float64bits` / `math.Float64frombits` are exact bit casts.
  The float-to-int64 truncation performed by the comparison helpers is
  computed exactly from the bit pattern.
* The rendering of a `float64` by Go's `fmt` package (the `%v` verb) is
  an external-library behaviour; definitions that need it take it as an
  explicit parameter `fmtF64 : Nat → List Nat`.  No claim of the
  specification depends on the concrete rendering.
* Go maps (rows) are modelled as association lists with unique keys;
  only lookups are observable, matching Go map semantics.  Map
  iteration order is never relied upon by the modelled code paths.
* Fallible Go functions returning `error` are modelled with `Except`
  or with an `Option GoError` component; the Go error strings are
  abstracted into the constructors of `GoError`.
-/

namespace GhostSQL

/-! ## Byte-level utilities (binary.LittleEndian) -/

/-- Little-endian 2-byte image of `uint16(n)` (`binary.LittleEndian.PutUint16`
after Go's truncating conversion to `uint16`). -/
def u16le (n : Nat) : List Nat := [n % 256, n / 2 ^ 8 % 256]

/-- Little-endian 4-byte image of `uint32(n)` (`PutUint32`). -/

def u32le (n : Nat) : List Nat :=
  [n % 256, n / 2 ^ 8 % 256, n / 2 ^ 16 % 256, n / 2 ^ 24 % 256]

/-- Little-endian 8-byte image of `uint64(n)` (`PutUint64`). -/

def u64le (n : Nat) : List Nat :=
  [n % 256, n / 2 ^ 8 % 256, n / 2 ^ 16 % 256, n / 2 ^ 24 % 256,
   n / 2 ^ 32 % 256, n / 2 ^ 40 % 256, n / 2 ^ 48 % 256, n / 2 ^ 56 % 256]

/-- Read a little-endian `uint16` from the head of a buffer
(`binary.LittleEndian.Uint16`). -/

def readU16 (d : List Nat) : Nat := d.getD 0 0 + 2 ^ 8 * d.getD 1 0

/-- Read a little-endian `uint32` from the head of a buffer (`Uint32`). -/

def readU32 (d : List Nat) : Nat :=
  d.getD 0 0 + 2 ^ 8 * d.getD 1 0 + 2 ^ 16 * d.getD 2 0 + 2 ^ 24 * d.getD 3 0

/-- Read a little-endian `uint64` from the head of a buffer (`Uint64`). -/

def readU64 (d : List Nat) : Nat :=
  d.getD 0 0 + 2 ^ 8 * d.getD 1 0 + 2 ^ 16 * d.getD 2 0 + 2 ^ 24 * d.getD 3 0 +
  2 ^ 32 * d.getD 4 0 + 2 ^ 40 * d.getD 5 0 + 2 ^ 48 * d.getD 6 0 + 2 ^ 56 * d.getD 7 0

/-- Reinterpret a `uint32` as Go's `int32` (two's complement). -/

def asInt32 (n : Nat) : Int :=
  if n % 2 ^ 32 < 2 ^ 31 then (n % 2 ^ 32 : Int) else (n % 2 ^ 32 : Int) - 2 ^ 32

/-- Reinterpret a `uint64` as Go's `int64` (two's complement). -/

def asInt64 (n : Nat) : Int :=
  if n % 2 ^ 64 < 2 ^ 63 then (n % 2 ^ 64 : Int) else (n % 2 ^ 64 : Int) - 2 ^ 64

/-- Column data types (`storage.DataType`, internal/storage/types.go). -/

inductive DataType where
  | tInvalid
  | tInt
  | tBigInt
  | tText
  | tVarChar
  | tFloat
  | tBoolean
  | tVector
deriving DecidableEq, Repr

/-- A runtime value held in a row (`interface\x7b\x7d` in the Go code).
The constructors are the dynamic Go types that actually flow through
the modelled code: `int`, `int32`, `int64`, `bool`, `string` (raw
bytes), `float64` (IEEE bit pattern), `*storage.Vector` (dimension
count plus float32 bit patterns), and `nil`. -/

inductive Value where
  | vnull
  | vint (i : Int)
  | vint32 (i : Int)
  | vint64 (i : Int)
  | vbool (b : Bool)
  | vstr (s : List Nat)
  | vfloat (bits : Nat)
  | vvec (dims : Nat) (vals : List Nat)
deriving DecidableEq, Repr

/-- A table column (`storage.Column`, internal/storage/table.go).
The Go struct has further fields (`IsUnique`, `DefaultVal`, `Metadata`)
that no modelled code path reads; they are omitted. `foreignKey`
models `*ForeignKeyConstraint` as (referenced table, referenced column). -/

structure Column where
  name : String
  type : DataType
  length : Nat
  nullable : Bool
  isPrimary : Bool
  foreignKey : Option (String × String)
deriving DecidableEq, Repr

/-- A row (`storage.Row = map[string]interface\x7b\x7d`), modelled as an
association list with unique keys; only `rowGet` is observable. -/

abbrev Row : Type := List (String × Value)

/-- Go map read `row[k]` distinguishing presence: `none` is an absent
key, `some .vnull` is a key bound to Go `nil`. -/

def rowGet (r : Row) (k : String) : Option Value :=
  match r with
  | [] => none
  | (k', v) :: rest => if k' = k then some v else rowGet rest k

/-- Go map read `row[k]` in value position (absent key yields the zero
value of `interface\x7b\x7d`, which is `nil`). -/

def rowGetD (r : Row) (k : String) : Value :=
  (rowGet r k).getD .vnull

/-! ## Conversion helpers (internal/storage/encoding.go) -/

/-- Exact truncation toward zero of the `float64` with bit pattern
`bits`, as Go's `int64(v)` conversion computes it for finite in-range
values.  For NaN, infinities and out-of-range values Go's conversion
is implementation-defined; this model returns the amd64 result
(`-2^63`) there.  Theorems that depend on truncation restrict
themselves to finite in-range floats. -/

def f64TruncBits (bits : Nat) : Int :=
  let sign := bits / 2 ^ 63 % 2
  let e := bits / 2 ^ 52 % 2 ^ 11
  let m := bits % 2 ^ 52
  if e = 2047 then -(2 ^ 63)
  else if e < 1023 then 0
  else
    let k := e - 1023
    let mag : Nat := if 52 ≤ k then (2 ^ 52 + m) * 2 ^ (k - 52) else (2 ^ 52 + m) / 2 ^ (52 - k)
    let v : Int := if sign = 1 then -(mag : Int) else (mag : Int)
    if v < -(2 ^ 63) ∨ (2 ^ 63 : Int) ≤ v then -(2 ^ 63) else v

/-- The finite-float predicate: the exponent field is not all-ones. -/

def f64Finite (bits : Nat) : Prop := bits / 2 ^ 52 % 2 ^ 11 ≠ 2047

instance (bits : Nat) : Decidable (f64Finite bits) := by unfold f64Finite; infer_instance

/-- Exact rational value of a finite `float64` bit pattern (the codec
and comparison helpers never need this; it is used to state that
`f64TruncBits` really is truncation). -/

def f64ToQ (bits : Nat) : ℚ :=
  let sign : ℚ := if bits / 2 ^ 63 % 2 = 1 then -1 else 1
  let e : Nat := bits / 2 ^ 52 % 2 ^ 11
  let m : Nat := bits % 2 ^ 52
  if e = 0 then sign * (m : ℚ) / 2 ^ 1074
  else sign * ((2 ^ 52 + m : Nat) : ℚ) * 2 ^ e / 2 ^ 1075

/-- Exact rational value of a finite `float32` bit pattern (vector
components are `float32`; the distance functions widen them to
`float64`, which is exact). -/

def f32ToQ (bits : Nat) : ℚ :=
  let sign : ℚ := if bits / 2 ^ 31 % 2 = 1 then -1 else 1
  let e : Nat := bits / 2 ^ 23 % 2 ^ 8
  let m : Nat := bits % 2 ^ 23
  if e = 0 then sign * (m : ℚ) / 2 ^ 149
  else sign * ((2 ^ 23 + m : Nat) : ℚ) * 2 ^ e / 2 ^ 150

/-- IEEE-754 bit pattern of `float64(i)` for an integer `i` (round to
nearest, ties to even), as Go's int-to-float conversion computes it.
Every `int64` magnitude has exponent at most 63, far below overflow. -/

def intToF64Bits (i : Int) : Nat :=
  if i = 0 then 0
  else
    let sign : Nat := if i < 0 then 2 ^ 63 else 0
    let n := i.natAbs
    let e := Nat.log2 n
    if e ≤ 52 then
      sign + (1023 + e) * 2 ^ 52 + (n - 2 ^ e) * 2 ^ (52 - e)
    else
      let shift := e - 52
      let q := n / 2 ^ shift
      let r := n % 2 ^ shift
      let half := 2 ^ (shift - 1)
      let q' := if half < r ∨ (r = half ∧ q % 2 = 1) then q + 1 else q
      if q' = 2 ^ 53 then sign + (1024 + e) * 2 ^ 52
      else sign + (1023 + e) * 2 ^ 52 + (q' - 2 ^ 52)

/-- `toInt` (encoding.go): convert a runtime value to Go `int`;
unhandled dynamic types yield 0. -/

def toInt (v : Value) : Int :=
  match v with
  | .vint i => i
  | .vint32 i => i
  | .vint64 i => i
  | .vfloat bits => f64TruncBits bits
  | _ => 0

/-- `toInt64` (encoding.go). -/

def toInt64 (v : Value) : Int :=
  match v with
  | .vint i => i
  | .vint32 i => i
  | .vint64 i => i
  | .vfloat bits => f64TruncBits bits
  | _ => 0

/-- `toFloat64` (encoding.go) reduced to the produced bit pattern; the
error case is Go's zero value 0.0 because `EncodeRow` discards the
error (`floatVal, _ := toFloat64(val)`).  Note Go's `toFloat64` has no
`int32` case, so an `int32` lands in the error branch. -/

def toFloat64Bits (v : Value) : Nat :=
  match v with
  | .vfloat bits => bits
  | .vint i => intToF64Bits i
  | .vint64 i => intToF64Bits i
  | _ => 0

/-- `toBool` (encoding.go). -/

def toBool (v : Value) : Bool :=
  match v with
  | .vbool b => b
  | .vint i => i ≠ 0
  | _ => false

/-! ## Go fmt rendering (the %v verb) -/

/-- ASCII decimal digits of a natural number. -/

def natDec (n : Nat) : List Nat := (Nat.toDigits 10 n).map Char.toNat

/-- Go's `%v` rendering of an integer: optional minus sign, decimal digits. -/

def intDec (i : Int) : List Nat :=
  if i < 0 then 45 :: natDec i.natAbs else natDec i.natAbs

/-- Go's `fmt.Sprintf(v)` with the `%v` verb, as raw bytes.  The
`float64` case is delegated to the external `fmt` library behaviour
`fmtF64`; the `*Vector` case is the `Vector.String` method of
types.go, which renders `VECTOR(` ++ dimension ++ `)`. -/

def goString (fmtF64 : Nat → List Nat) : Value → List Nat
  | .vnull => [60, 110, 105, 108, 62]
  | .vint i => intDec i
  | .vint32 i => intDec i
  | .vint64 i => intDec i
  | .vbool true => [116, 114, 117, 101]
  | .vbool false => [102, 97, 108, 115, 101]
  | .vstr s => s
  | .vfloat bits => fmtF64 bits
  | .vvec dims _ => [86, 69, 67, 84, 79, 82, 40] ++ natDec dims ++ [41]

/-! ## Errors

Go reports errors as strings built with `fmt.Errorf`; only their
presence and identity of the failing check matter to the claims, so
each distinct error site is a constructor. -/

inductive GoError where
  | expectedVector
  | rowTooShort
  | colCountMismatch
  | unexpectedEnd
  | missingColumn
  | notEnoughSpace
  | invalidSlot
  | rowDeleted
  | pageInsertFailed
  | valueTooLong
  | invalidVectorFormat
  | cannotBeNull
  | pkNull
  | pkDuplicate
  | fkTableMissing
  | fkMiss
  | columnCountMismatch
  | tableNotFound
  | invalidVectorValue
  | unsupportedJoinType
  | dimensionMismatch
  | unsupportedDistanceFn
  | goPanic
  | unsupportedOperator
  | encodeFailed (e : GoError)
deriving DecidableEq, Repr

instance {ε α : Type} [DecidableEq ε] [DecidableEq α] : DecidableEq (Except ε α) :=
  fun a b =>
    match a, b with
    | .error e, .error f => decidable_of_iff (e = f) (by simp)
    | .ok x, .ok y => decidable_of_iff (x = y) (by simp)
    | .error _, .ok _ => isFalse (by simp)
    | .ok _, .error _ => isFalse (by simp)

/-! ## Row codec (internal/storage/encoding.go) -/

/-- The value bytes written by `EncodeRow`'s per-type switch for a
present, non-nil value.  Only the VECTOR arm can fail (the
`val.(*Vector)` type assertion); an unhandled type writes nothing. -/

def encodeTyped (fmtF64 : Nat → List Nat) (t : DataType) (v : Value) :
    Except GoError (List Nat) :=
  match t with
  | .tInt => .ok (u32le ((toInt v % (2 ^ 32 : Int)).toNat))
  | .tBigInt => .ok (u64le ((toInt64 v % (2 ^ 64 : Int)).toNat))
  | .tFloat => .ok (u64le (toFloat64Bits v))
  | .tBoolean => .ok [if toBool v then 1 else 0]
  | .tText =>
      let s := goString fmtF64 v
      .ok (u32le s.length ++ s)
  | .tVarChar =>
      let s := goString fmtF64 v
      .ok (u32le s.length ++ s)
  | .tVector =>
      match v with
      | .vvec dims vals => .ok (u32le dims ++ vals.flatMap u32le)
      | _ => .error .expectedVector
  | .tInvalid => .ok []

/-- The per-column loop of `EncodeRow`: a 2-byte null flag, then the
value bytes for present non-nil values. -/

def encodeCols (fmtF64 : Nat → List Nat) (cols : List Column) (row : Row) :
    Except GoError (List Nat) :=
  match cols with
  | [] => .ok []
  | c :: rest =>
    match rowGet row c.name with
    | none => do
        let r ← encodeCols fmtF64 rest row
        return u16le 1 ++ r
    | some .vnull => do
        let r ← encodeCols fmtF64 rest row
        return u16le 1 ++ r
    | some v => do
        let e ← encodeTyped fmtF64 c.type v
        let r ← encodeCols fmtF64 rest row
        return u16le 0 ++ e ++ r

/-- `EncodeRow` (encoding.go): `u16 column_count`, then one null-flag /
value block per schema column, in schema order. -/

def encodeRow (fmtF64 : Nat → List Nat) (cols : List Column) (row : Row) :
    Except GoError (List Nat) := do
  let body ← encodeCols fmtF64 cols row
  return u16le cols.length ++ body

/-- Read `k` float32 bit patterns (4 bytes each) for a VECTOR value,
with the per-element bounds check of `DecodeRow`. -/

def decodeF32s (k : Nat) (acc : List Nat) (d : List Nat) :
    Except GoError (List Nat × List Nat) :=
  match k with
  | 0 => .ok (acc.reverse, d)
  | k + 1 =>
    if d.length < 4 then .error .unexpectedEnd
    else decodeF32s k (readU32 d :: acc) (d.drop 4)

/-- The value-reading switch of `DecodeRow`, consuming a prefix of the
remaining buffer.  Each arm performs the source's bounds check before
reading.  Offsets into the Go buffer correspond to the remaining-list
suffix here (`offset+n > len(data)` iff `n > remaining.length`). -/

def decodeTyped (t : DataType) (d : List Nat) : Except GoError (Value × List Nat) :=
  match t with
  | .tInt =>
      if d.length < 4 then .error .unexpectedEnd
      else .ok (.vint (asInt32 (readU32 d)), d.drop 4)
  | .tBigInt =>
      if d.length < 8 then .error .unexpectedEnd
      else .ok (.vint64 (asInt64 (readU64 d)), d.drop 8)
  | .tFloat =>
      if d.length < 8 then .error .unexpectedEnd
      else .ok (.vfloat (readU64 d), d.drop 8)
  | .tBoolean =>
      if d.length < 1 then .error .unexpectedEnd
      else .ok (.vbool (d.getD 0 0 = 1), d.drop 1)
  | .tText =>
      if d.length < 4 then .error .unexpectedEnd
      else
        let n := readU32 d
        let d' := d.drop 4
        if d'.length < n then .error .unexpectedEnd
        else .ok (.vstr (d'.take n), d'.drop n)
  | .tVarChar =>
      if d.length < 4 then .error .unexpectedEnd
      else
        let n := readU32 d
        let d' := d.drop 4
        if d'.length < n then .error .unexpectedEnd
        else .ok (.vstr (d'.take n), d'.drop n)
  | .tVector =>
      if d.length < 4 then .error .unexpectedEnd
      else do
        let dims := readU32 d
        let (vals, rest) ← decodeF32s dims [] (d.drop 4)
        return (.vvec dims vals, rest)
  | .tInvalid => .ok (.vnull, d)

/-- The per-column loop of `DecodeRow`.  A null flag of 1 binds the
column to `nil`; the Go switch has no arm for an invalid type, so such
a column is skipped without consuming bytes or adding a key. -/

def decodeCols (cols : List Column) (d : List Nat) : Except GoError Row :=
  match cols with
  | [] => .ok []
  | c :: rest =>
    if d.length < 2 then .error .unexpectedEnd
    else
      let flag := readU16 d
      let d1 := d.drop 2
      if flag = 1 then do
        let r ← decodeCols rest d1
        return (c.name, Value.vnull) :: r
      else if c.type = .tInvalid then
        decodeCols rest d1
      else do
        let (v, d2) ← decodeTyped c.type d1
        let r ← decodeCols rest d2
        return (c.name, v) :: r

/-- `DecodeRow` (encoding.go): length guard, column-count check,
then the per-column loop. -/

def decodeRow (cols : List Column) (d : List Nat) : Except GoError Row :=
  if d.length < 2 then .error .rowTooShort
  else if readU16 d ≠ cols.length then .error .colCountMismatch
  else decodeCols cols (d.drop 2)

/-- A value is well-typed for a column type: the dynamic Go type the
schema expects, within the ranges representable by the format (the
format stores lengths in `u32` and counts in `u16` fields).  Go `nil`
is accepted for every supported type. -/

def valueMatches (t : DataType) (v : Value) : Bool :=
  match t, v with
  | t, .vnull => t ≠ .tInvalid
  | .tInt, .vint i => decide (-(2 ^ 31) ≤ i) && decide (i < 2 ^ 31)
  | .tBigInt, .vint64 i => decide (-(2 ^ 63) ≤ i) && decide (i < 2 ^ 63)
  | .tFloat, .vfloat bits => decide (bits < 2 ^ 64)
  | .tBoolean, .vbool _ => true
  | .tText, .vstr s => s.all (· < 256) && decide (s.length < 2 ^ 32)
  | .tVarChar, .vstr s => s.all (· < 256) && decide (s.length < 2 ^ 32)
  | .tVector, .vvec dims vals =>
      decide (dims = vals.length) && vals.all (· < 2 ^ 32) && decide (dims < 2 ^ 32)
  | _, _ => false

/-- Decoding yields `nil` for a column whose key was absent or bound
to `nil`, and the stored value otherwise. -/

def nrmVal (o : Option Value) : Value :=
  match o with
  | none => .vnull
  | some v => v

/-- `toComparableInt` (identical in table.go and executor.go): an
`int`, `int32` or `int64` is returned as `int64`; a `float64` is
converted with Go's truncating `int64(v)`; anything else is not
numeric. -/

def toComparableInt (v : Value) : Option Int :=
  match v with
  | .vint i => some i
  | .vint32 i => some i
  | .vint64 i => some i
  | .vfloat bits => some (f64TruncBits bits)
  | _ => none

/-- Go's `<` on strings: bytewise lexicographic, a strict prefix is
smaller. -/

def bytesLt : List Nat → List Nat → Bool
  | [], [] => false
  | [], _ :: _ => true
  | _ :: _, [] => false
  | a :: as, b :: bs => if a < b then true else if b < a then false else bytesLt as bs

/-- `compare` (table.go), textually identical to `compareValues`
(executor.go): numeric comparison via `toComparableInt` when both
operands are numeric-ish, otherwise lexicographic comparison of the
`%v` renderings. -/

def compareVal (fmtF64 : Nat → List Nat) (a b : Value) : Int :=
  match toComparableInt a, toComparableInt b with
  | some x, some y => if x < y then -1 else if y < x then 1 else 0
  | _, _ =>
    let sa := goString fmtF64 a
    let sb := goString fmtF64 b
    if bytesLt sa sb then -1 else if bytesLt sb sa then 1 else 0

/-- The values the spec calls numeric-ish: int, int32, int64, float64. -/

def specNumericish (v : Value) : Prop :=
  (∃ i, v = Value.vint i) ∨ (∃ i, v = Value.vint32 i) ∨
  (∃ i, v = Value.vint64 i) ∨ (∃ bits, v = Value.vfloat bits)

/-- Truncation toward zero of a rational. -/

def ratTrunc (q : ℚ) : Int := if q < 0 then ⌈q⌉ else ⌊q⌋

/-- `copy(d[pos:], b)`: overwrite at `pos`, truncated at the end of
`d` (Go `copy` copies `min(len(b), len(d)-pos)` bytes). -/

def writeBytes (d : List Nat) (pos : Nat) (b : List Nat) : List Nat :=
  d.take pos ++ b.take (d.length - pos) ++ d.drop (pos + b.length)

/-- Read a `uint16` at an absolute offset of a page image
(`binary.LittleEndian.Uint16(d[pos : pos+2])`). -/

def readU16at (d : List Nat) (pos : Nat) : Nat :=
  d.getD pos 0 + 2 ^ 8 * d.getD (pos + 1) 0

/-- `storage.SlottedPage`.  `pageId < 2^64`, the other three fields are
`uint16` values. -/

structure SlottedPage where
  pageId : Nat
  numSlots : Nat
  freeStart : Nat
  freeEnd : Nat
  data : List Nat
deriving DecidableEq, Repr, Inhabited

/-- `writeHeader`: page id at 0, slot count at 8, free start at 10. -/

def writeHeader (sp : SlottedPage) : SlottedPage :=
  { sp with data :=
      writeBytes (writeBytes (writeBytes sp.data 0 (u64le sp.pageId))
        8 (u16le sp.numSlots)) 10 (u16le sp.freeStart) }

/-- `NewSlottedPage`. -/

def newSlottedPage (pageId : Nat) : SlottedPage :=
  writeHeader
    { pageId := pageId, numSlots := 0, freeStart := 12, freeEnd := 16384,
      data := List.replicate 16384 0 }

/-- `SlottedPage.InsertRow`.  `rowLen` is Go's `uint16(len(rowData))`,
so lengths are reduced modulo 2^16; `spaceNeeded` and the free-space
subtraction are `uint16` arithmetic and wrap the same way.  On success
the Go method mutates the receiver; on failure it returns before any
mutation, which the `Except` models.  When the wrapped arithmetic
sends `FreeEnd` past the end of the array, Go panics on the slice
expression `sp.Data[sp.FreeEnd:]`; the model surfaces that runtime
panic as the `.goPanic` error. -/

def insertRow (sp : SlottedPage) (rowData : List Nat) :
    Except GoError (Nat × SlottedPage) :=
  let rowLen := rowData.length % 2 ^ 16
  let spaceNeeded := (rowLen + 4) % 2 ^ 16
  let freeSpace := (sp.freeEnd + 2 ^ 16 - sp.freeStart) % 2 ^ 16
  if freeSpace < spaceNeeded then .error .notEnoughSpace
  else
    let newFreeEnd := (sp.freeEnd + 2 ^ 16 - rowLen) % 2 ^ 16
    if sp.data.length < newFreeEnd then .error .goPanic
    else
    let d1 := writeBytes sp.data newFreeEnd rowData
    let d2 := writeBytes d1 sp.freeStart (u16le newFreeEnd)
    let d3 := writeBytes d2 (sp.freeStart + 2) (u16le rowLen)
    let slotId := sp.numSlots
    .ok (slotId, writeHeader
      { sp with
        numSlots := (sp.numSlots + 1) % 2 ^ 16,
        freeStart := (sp.freeStart + 4) % 2 ^ 16,
        freeEnd := newFreeEnd,
        data := d3 })

/-- `SlottedPage.GetRow`: bounds-check the slot id, reject tombstones
(offset and length both 0), then copy the row bytes out. -/

def getRow (sp : SlottedPage) (slotId : Nat) : Except GoError (List Nat) :=
  if sp.numSlots ≤ slotId then .error .invalidSlot
  else
    let slotOffset := 12 + slotId * 4
    let off := readU16at sp.data slotOffset
    let len := readU16at sp.data (slotOffset + 2)
    if off = 0 ∧ len = 0 then .error .rowDeleted
    else .ok ((sp.data.drop off).take len)

/-- `SlottedPage.GetAllRows`: live rows in slot order, skipping slots
whose `GetRow` fails. -/

def getAllRows (sp : SlottedPage) : List (List Nat) :=
  (List.range sp.numSlots).filterMap (fun i => (getRow sp i).toOption)

/-- `SlottedPage.IsFull` for a prospective `uint16` payload length:
the same wrap-around space check as `InsertRow`. -/

def isFull (sp : SlottedPage) (dataSize : Nat) : Bool :=
  let spaceNeeded := (dataSize % 2 ^ 16 + 4) % 2 ^ 16
  let freeSpace := (sp.freeEnd + 2 ^ 16 - sp.freeStart) % 2 ^ 16
  decide (freeSpace < spaceNeeded)

/-- The slot offsets currently stored in the page's slot directory. -/

def slotOffsets (sp : SlottedPage) : List Nat :=
  (List.range sp.numSlots).map (fun i => readU16at sp.data (12 + i * 4))

/-- The reconstruction of `free_end` used by `LoadSlottedPage`: the
minimum row offset across slots, or the page size if there are none. -/

def minOffset (sp : SlottedPage) : Nat :=
  (slotOffsets sp).foldr min 16384

/-- Pages reachable from a fresh page by successful insertions of
payloads within the `uint16`-safe bound (payload length at most
65531, so that `uint16(len)+4` does not wrap; longer payloads wrap
the 16-bit arithmetic — see the C6 counterexample). -/

inductive PageReachable : SlottedPage → Prop where
  | fresh (pid : Nat) : PageReachable (newSlottedPage pid)
  | step (sp sp' : SlottedPage) (rowData : List Nat) (slotId : Nat) :
      PageReachable sp → rowData.length ≤ 65531 →
      insertRow sp rowData = .ok (slotId, sp') → PageReachable sp'

/-! ## Table, WHERE and LIKE (internal/storage/table.go) -/

/-- `storage.WhereClause` (table.go): a single leaf condition.  The
storage-side type has no `And`/`Or` fields. -/

structure WhereClause where
  column : String
  operator : String
  value : Value
deriving DecidableEq, Repr

/-- `storage.Table`: schema, in-memory row sequence, page list.  The
`PageMgr`, `Metadata` and lock fields are not read by any modelled
code path; `VectorIndexes` is modelled separately where the vector
claims need it. -/

structure Table where
  name : String
  columns : List Column
  rows : List Row
  pages : List SlottedPage
deriving DecidableEq

/-- `NewTable`: empty row and page lists. -/

def newTable (name : String) (columns : List Column) : Table :=
  { name := name, columns := columns, rows := [], pages := [] }

/-- ASCII lowering of a byte string.  Go's `strings.ToLower` is
Unicode-aware; the modelled code paths and claims only ever pass ASCII
through LIKE, where the two agree. -/

def goToLower (s : List Nat) : List Nat :=
  s.map (fun c => if 65 ≤ c ∧ c ≤ 90 then c + 32 else c)

/-- `matchLikeRecursive` (table.go), with the byte-index pair replaced
by the remaining suffixes: `%` (byte 37) matches any run, `_` (byte
95) any single byte. -/

def matchLikeRec : List Nat → List Nat → Bool
  | s, [] => s.isEmpty
  | s, pc :: prest =>
    match s with
    | [] => (pc :: prest).all (· = 37)
    | sc :: srest =>
      if pc = 37 then matchLikeRec (sc :: srest) prest || matchLikeRec srest (pc :: prest)
      else if pc = 95 then matchLikeRec srest prest
      else if pc = sc then matchLikeRec srest prest
      else false
termination_by s p => s.length + p.length

/-- `matchLikePattern`: case-insensitive via lowering both sides. -/

def matchLikePattern (str pat : List Nat) : Bool :=
  matchLikeRec (goToLower str) (goToLower pat)

/-- `matchLike`: renders both operands with `%v` first. -/

def matchLike (fmtF64 : Nat → List Nat) (value pat : Value) : Bool :=
  matchLikePattern (goString fmtF64 value) (goString fmtF64 pat)

/-- `evaluateWhere` (table.go): looks the column up in the row (an
absent key fails the filter; a key bound to nil is compared as nil),
then dispatches on the operator string. -/

def evaluateWhere (fmtF64 : Nat → List Nat) (row : Row) (w : WhereClause) : Bool :=
  match rowGet row w.column with
  | none => false
  | some val =>
    if w.operator = "=" then decide (compareVal fmtF64 val w.value = 0)
    else if w.operator = "!=" ∨ w.operator = "<>" then
      decide (compareVal fmtF64 val w.value ≠ 0)
    else if w.operator = "<" then decide (compareVal fmtF64 val w.value < 0)
    else if w.operator = "<=" then decide (compareVal fmtF64 val w.value ≤ 0)
    else if w.operator = ">" then decide (0 < compareVal fmtF64 val w.value)
    else if w.operator = ">=" then decide (0 ≤ compareVal fmtF64 val w.value)
    else if w.operator = "LIKE" then matchLike fmtF64 val w.value
    else false

/-- The projection loop of `Table.Select`: named columns that exist in
the row, in the requested order. -/

def projectRow (row : Row) (cns : List String) : Row :=
  cns.filterMap (fun cn => (rowGet row cn).map (fun v => (cn, v)))

/-- `Table.Select`: scan the in-memory rows, filter by the WHERE leaf,
return rows whole for `*` or projected otherwise.  Order is insertion
order. -/

def tableSelect (fmtF64 : Nat → List Nat) (t : Table) (columnNames : List String)
    (w : Option WhereClause) : List Row :=
  (t.rows.filter (fun row =>
      match w with
      | none => true
      | some wc => evaluateWhere fmtF64 row wc)).map
    (fun row =>
      if columnNames.length = 1 ∧ columnNames.headD "" = "*" then row
      else projectRow row columnNames)

/-- `Table.Insert` (table.go): require every non-nullable column's key
to be present, encode, insert into the first page with room or into a
freshly allocated page (page id = current page count), then append to
the row sequence.  The Go method mutates the receiver: when the fresh
page cannot hold the encoded row, the page list has already grown by
the (empty) new page when the error returns. -/

def tableInsert (fmtF64 : Nat → List Nat) (t : Table) (row : Row) :
    Table × Option GoError :=
  if t.columns.any (fun c => !c.nullable && (rowGet row c.name).isNone) then
    (t, some .missingColumn)
  else
    match encodeRow fmtF64 t.columns row with
    | .error e => (t, some (.encodeFailed e))
    | .ok rowData =>
      match t.pages.findIdx? (fun p => !isFull p rowData.length) with
      | some i =>
        match insertRow t.pages[i]! rowData with
        | .ok (_, p') =>
          ({ t with pages := t.pages.set i p', rows := t.rows ++ [row] }, none)
        | .error _ => (t, some .pageInsertFailed)
      | none =>
        let pageId := t.pages.length
        let target := newSlottedPage pageId
        match insertRow target rowData with
        | .ok (_, p') =>
          ({ t with pages := t.pages ++ [p'], rows := t.rows ++ [row] }, none)
        | .error _ => ({ t with pages := t.pages ++ [target] }, some .pageInsertFailed)

/-- `Table.Delete`: a nil WHERE clears all rows; otherwise matching
rows are filtered out and counted. -/

def tableDelete (fmtF64 : Nat → List Nat) (t : Table) (w : Option WhereClause) :
    Table × Nat :=
  match w with
  | none => ({ t with rows := [] }, t.rows.length)
  | some wc =>
    (({ t with rows := t.rows.filter (fun row => !evaluateWhere fmtF64 row wc) }),
      (t.rows.filter (fun row => evaluateWhere fmtF64 row wc)).length)

/-! ## Executor: WHERE conversion (internal/executor/executor.go,
internal/parser/ast.go) -/

/-- `parser.WhereClause` (parser/ast.go): the parser's condition with
`And`/`Or` links; `parseWhere` (parser.go) fills them for
`... AND ...` / `... OR ...` inputs. -/

inductive ParserWhere where
  | node (column : String) (op : String) (value : Value)
      (andC : Option ParserWhere) (orC : Option ParserWhere)
deriving Repr

/-- `convertWhereClause` (executor.go): copies only `Column`,
`Operator` and `Value` into the storage clause — the parser's
`And`/`Or` children are not copied. -/

def convertWhereClause : Option ParserWhere → Option WhereClause
  | none => none
  | some (.node c op v _ _) => some ⟨c, op, v⟩

/-! ## Executor: INSERT pipeline (executeInsert, executor.go), and
ParseVector (internal/storage/vector.go) -/

/-- `splitVector`'s accumulator loop: split on `,` (44), drop spaces,
tabs and newlines (32, 9, 10), skip empty fragments. -/

def splitVectorAux (acc : List Nat) : List Nat → List (List Nat)
  | [] => if acc.isEmpty then [] else [acc.reverse]
  | ch :: rest =>
    if ch = 44 then
      if acc.isEmpty then splitVectorAux [] rest else acc.reverse :: splitVectorAux [] rest
    else if ch = 32 ∨ ch = 9 ∨ ch = 10 then splitVectorAux acc rest
    else splitVectorAux (ch :: acc) rest

/-- `splitVector` (vector.go). -/

def splitVector (s : List Nat) : List (List Nat) := splitVectorAux [] s

/-- `ParseVector` (vector.go): optional `ARRAY` prefix, surrounding
brackets, comma-separated components.  The numeric scan of each
component (`fmt.Sscanf` with `%f`, then conversion to `float32`) is
external `fmt` behaviour, taken as the parameter `scanF` producing a
float32 bit pattern. -/

def parseVector (scanF : List Nat → Option Nat) (s0 : List Nat) : Except GoError Value :=
  let s1 := if 6 < s0.length ∧ s0.take 5 = [65, 82, 82, 65, 89] then s0.drop 5 else s0
  if s1.length < 2 ∨ s1.headD 0 ≠ 91 ∨ s1.getLastD 0 ≠ 93 then .error .invalidVectorFormat
  else
    let s2 := (s1.drop 1).take (s1.length - 2)
    match (splitVector s2).mapM scanF with
    | none => .error .invalidVectorValue
    | some vals => .ok (.vvec vals.length vals)

/-- Go map assignment `row[k] = v`: overwrite an existing key, else add. -/

def rowSet (r : Row) (k : String) (v : Value) : Row :=
  if (rowGet r k).isSome then r.map (fun kv => if kv.1 = k then (k, v) else kv)
  else r ++ [(k, v)]

/-- First column of the schema with the given name (`executeInsert`'s
inner lookup loop; a name that matches no column leaves the zero
`Column` value, whose type is invalid, so no check applies). -/

def findColumn (cols : List Column) (name : String) : Option Column :=
  cols.find? (fun c => c.name = name)

/-- The per-value checks of `executeInsert`'s first loop: the
VARCHAR(n) byte-length check for string values when `n > 0`, then the
vector parse for string values bound for VECTOR columns. -/

def insertConvertValue (scanF : List Nat → Option Nat) (cd : Option Column)
    (val : Value) : Except GoError Value :=
  match cd with
  | none => .ok val
  | some c =>
    match
      (if c.type = .tVarChar ∧ 0 < c.length then
        match val with
        | .vstr s => if c.length < s.length then .error .valueTooLong else .ok ()
        | _ => .ok ()
      else .ok () : Except GoError Unit) with
    | .error e => .error e
    | .ok _ =>
      if c.type = .tVector then
        match val with
        | .vstr s => parseVector scanF s
        | _ => .ok val
      else .ok val

/-- The row-building loop of `executeInsert`: checked and converted
values, assigned in column-list order. -/

def buildRowAux (scanF : List Nat → Option Nat) (cols : List Column) (row : Row) :
    List (String × Value) → Except GoError Row
  | [] => .ok row
  | (colName, val) :: rest => do
    let val' ← insertConvertValue scanF (findColumn cols colName) val
    buildRowAux scanF cols (rowSet row colName val') rest

/-- The built row for one `VALUES` tuple. -/

def buildRow (scanF : List Nat → Option Nat) (cols : List Column)
    (pairs : List (String × Value)) : Except GoError Row :=
  buildRowAux scanF cols [] pairs

/-- `executeInsert`'s NOT NULL loop: every non-nullable column must be
present and non-nil in the built row. -/

def validateNotNull (cols : List Column) (row : Row) : Option GoError :=
  if cols.any (fun c =>
      !c.nullable && ((rowGet row c.name).isNone || rowGet row c.name == some .vnull))
  then some .cannotBeNull else none

/-- `executeInsert`'s PRIMARY KEY check for one column. -/

def validatePKCol (fmtF64 : Nat → List Nat) (rows : List Row) (row : Row)
    (c : Column) : Option GoError :=
  if c.isPrimary then
    let newVal := rowGetD row c.name
    if newVal = .vnull then some .pkNull
    else if rows.any (fun er => decide (compareVal fmtF64 newVal (rowGetD er c.name) = 0))
    then some .pkDuplicate
    else none
  else none

/-- `executeInsert`'s PRIMARY KEY loop: first failing column wins. -/

def validatePK (fmtF64 : Nat → List Nat) (cols : List Column) (rows : List Row)
    (row : Row) : Option GoError :=
  cols.findSome? (validatePKCol fmtF64 rows row)

/-- `executeInsert`'s FOREIGN KEY loop: a nil value on a nullable
column passes; otherwise the referenced table must exist and contain a
row whose referenced column compares equal. -/

def validateFK (fmtF64 : Nat → List Nat) (db : List (String × Table))
    (cols : List Column) (row : Row) : Option GoError :=
  cols.findSome? (fun c =>
    match c.foreignKey with
    | none => none
    | some (refT, refC) =>
      let fkValue := rowGetD row c.name
      if fkValue = .vnull ∧ c.nullable then none
      else
        match db.find? (fun kv => kv.1 = refT) with
        | none => some .fkTableMissing
        | some (_, refTable) =>
          if refTable.rows.any
              (fun rr => decide (compareVal fmtF64 (rowGetD rr refC) fkValue = 0))
          then none else some .fkMiss)

/-- One `VALUES` tuple of `executeInsert` (executor.go): count check,
row building with VARCHAR/vector handling, NOT NULL, PRIMARY KEY and
FOREIGN KEY validation, then `Table.Insert`.  Any validation error
returns before `Table.Insert`, leaving the table untouched. -/

def execInsertRow (fmtF64 : Nat → List Nat) (scanF : List Nat → Option Nat)
    (db : List (String × Table)) (t : Table) (colNames : List String)
    (values : List Value) : Table × Option GoError :=
  if colNames.length ≠ values.length then (t, some .columnCountMismatch)
  else
    match buildRow scanF t.columns (colNames.zip values) with
    | .error e => (t, some e)
    | .ok row =>
      match validateNotNull t.columns row with
      | some e => (t, some e)
      | none =>
        match validatePK fmtF64 t.columns t.rows row with
        | some e => (t, some e)
        | none =>
          match validateFK fmtF64 db t.columns row with
          | some e => (t, some e)
          | none => tableInsert fmtF64 t row

/-! ## Executor: joins and SELECT (executor.go)

`parser.JoinClause` / `parser.JoinCondition` are reconstructed from
their uses in the executor (the AST revision declaring them is not in
the source snapshot): a join has a type string, a right-table name and
an optional condition of two unprefixed column names and an operator. -/

structure JoinCondition where
  leftColumn : String
  rightColumn : String
  operator : String
deriving DecidableEq, Repr

structure JoinClause where
  joinType : String
  table : String
  condition : Option JoinCondition
deriving DecidableEq, Repr

/-- `OrderByClause` (parser/ast.go). -/

structure OrderByClause where
  column : String
  descending : Bool
deriving DecidableEq, Repr

/-- `evaluateJoinCondition` (executor.go): a nil condition always
holds; nil on either side never matches; otherwise compare with the
condition's operator. -/

def evaluateJoinCondition (fmtF64 : Nat → List Nat) (l r : Row)
    (cond : Option JoinCondition) : Bool :=
  match cond with
  | none => true
  | some c =>
    let lv := rowGetD l c.leftColumn
    let rv := rowGetD r c.rightColumn
    if lv = .vnull ∨ rv = .vnull then false
    else
      let cmp := compareVal fmtF64 lv rv
      if c.operator = "=" then decide (cmp = 0)
      else if c.operator = "!=" then decide (cmp ≠ 0)
      else if c.operator = "<" then decide (cmp < 0)
      else if c.operator = ">" then decide (0 < cmp)
      else if c.operator = "<=" then decide (cmp ≤ 0)
      else if c.operator = ">=" then decide (0 ≤ cmp)
      else false

/-- The merged row of a join pair: every key prefixed with its table
name and a dot.  (Go builds a fresh map from both rows; with distinct
table names the prefixed key sets are disjoint, so the association
list below has the same lookups.) -/

def mergeJoinRow (lt : String) (l : Row) (rt : String) (r : Row) : Row :=
  l.map (fun kv => (lt ++ "." ++ kv.1, kv.2)) ++
  r.map (fun kv => (rt ++ "." ++ kv.1, kv.2))

/-- `executeInnerJoin` (executor.go): nested loops, left-major,
emitting a merged row for each pair satisfying the condition. -/

def executeInnerJoin (fmtF64 : Nat → List Nat) (lt : String) (leftRows : List Row)
    (rt : String) (rightRows : List Row) (cond : Option JoinCondition) : List Row :=
  leftRows.foldl
    (fun result l =>
      rightRows.foldl
        (fun result r =>
          if evaluateJoinCondition fmtF64 l r cond then
            result ++ [mergeJoinRow lt l rt r]
          else result)
        result)
    []

/-- `executeLeftJoin`: all matches per left row, or the bare left row
(prefixed) when none match. -/

def executeLeftJoin (fmtF64 : Nat → List Nat) (lt : String) (leftRows : List Row)
    (rt : String) (rightRows : List Row) (cond : Option JoinCondition) : List Row :=
  leftRows.foldl
    (fun result l =>
      let matched := (rightRows.filter (fun r => evaluateJoinCondition fmtF64 l r cond)).map
        (fun r => mergeJoinRow lt l rt r)
      if matched.isEmpty then result ++ [l.map (fun kv => (lt ++ "." ++ kv.1, kv.2))]
      else result ++ matched)
    []

/-- `executeRightJoin`: the mirror image of the left join. -/

def executeRightJoin (fmtF64 : Nat → List Nat) (lt : String) (leftRows : List Row)
    (rt : String) (rightRows : List Row) (cond : Option JoinCondition) : List Row :=
  rightRows.foldl
    (fun result r =>
      let matched := (leftRows.filter (fun l => evaluateJoinCondition fmtF64 l r cond)).map
        (fun l => mergeJoinRow lt l rt r)
      if matched.isEmpty then result ++ [r.map (fun kv => (rt ++ "." ++ kv.1, kv.2))]
      else result ++ matched)
    []

/-- `executeFullJoin`: left-join output plus unmatched right rows. -/

def executeFullJoin (fmtF64 : Nat → List Nat) (lt : String) (leftRows : List Row)
    (rt : String) (rightRows : List Row) (cond : Option JoinCondition) : List Row :=
  executeLeftJoin fmtF64 lt leftRows rt rightRows cond ++
  (rightRows.filter
      (fun r => !leftRows.any (fun l => evaluateJoinCondition fmtF64 l r cond))).map
    (fun r => r.map (fun kv => (rt ++ "." ++ kv.1, kv.2)))

/-- `executeCrossJoin`: the Cartesian product. -/

def executeCrossJoin (lt : String) (leftRows : List Row)
    (rt : String) (rightRows : List Row) : List Row :=
  leftRows.foldl
    (fun result l =>
      rightRows.foldl (fun result r => result ++ [mergeJoinRow lt l rt r]) result)
    []

/-- `executeJoins` (executor.go): fold the join chain left to right,
fetching each right table by name, dispatching on the join type; the
left-table name for prefixes advances to the joined table. -/

def executeJoins (fmtF64 : Nat → List Nat) (db : List (String × Table))
    (leftTable : String) (leftRows : List Row) : List JoinClause → Except GoError (List Row)
  | [] => .ok leftRows
  | j :: rest =>
    match db.find? (fun kv => kv.1 = j.table) with
    | none => .error .tableNotFound
    | some (_, rightTable) =>
      let rightRows := tableSelect fmtF64 rightTable ["*"] none
      let next : Except GoError (List Row) :=
        if j.joinType = "INNER" then
          .ok (executeInnerJoin fmtF64 leftTable leftRows j.table rightRows j.condition)
        else if j.joinType = "LEFT" then
          .ok (executeLeftJoin fmtF64 leftTable leftRows j.table rightRows j.condition)
        else if j.joinType = "RIGHT" then
          .ok (executeRightJoin fmtF64 leftTable leftRows j.table rightRows j.condition)
        else if j.joinType = "FULL" then
          .ok (executeFullJoin fmtF64 leftTable leftRows j.table rightRows j.condition)
        else if j.joinType = "CROSS" then
          .ok (executeCrossJoin leftTable leftRows j.table rightRows)
        else .error .unsupportedJoinType
      match next with
      | .error e => .error e
      | .ok rows => executeJoins fmtF64 db j.table rows rest

/-- The multi-key row comparison of `applyOrderBy` (executor.go). -/

def orderByLess (fmtF64 : Nat → List Nat) (orderBy : List OrderByClause)
    (a b : Row) : Bool :=
  match orderBy with
  | [] => false
  | o :: rest =>
    let cmp := compareVal fmtF64 (rowGetD a o.column) (rowGetD b o.column)
    if cmp ≠ 0 then (if o.descending then decide (0 < cmp) else decide (cmp < 0))
    else orderByLess fmtF64 rest a b

/-- `applyOrderBy` (executor.go): `sort.SliceStable` modelled by the
stable merge sort with the corresponding non-strict order. -/

def applyOrderBy (fmtF64 : Nat → List Nat) (rows : List Row)
    (orderBy : List OrderByClause) : List Row :=
  if orderBy.isEmpty then rows
  else rows.mergeSort (fun a b => !orderByLess fmtF64 orderBy b a)

/-- `parser.SelectStmt`, restricted to the fields the modelled
executor path reads.  Statements with aggregates or a vector ORDER BY
take other paths (`executeAggregateSelect`, `executeVectorSearch`);
the vector path is modelled separately for C7 and C10. -/

structure SelectStmt where
  columns : List String
  tableName : String
  whereClause : Option ParserWhere
  joins : List JoinClause
  orderBy : List OrderByClause
  limit : Nat
  offset : Nat
deriving Repr

/-- `executeSelect` (executor.go), the plain and join path: WHERE
against the left table (selected with `*`), join chain, ORDER BY,
OFFSET, LIMIT, `*`-expansion of the column list (prefixed per table
when joins are present), and the join-projection filter. -/

def executeSelect (fmtF64 : Nat → List Nat) (db : List (String × Table))
    (stmt : SelectStmt) : Except GoError (List Row × List String) :=
  match db.find? (fun kv => kv.1 = stmt.tableName) with
  | none => .error .tableNotFound
  | some (_, table) =>
    let rows0 := tableSelect fmtF64 table ["*"] (convertWhereClause stmt.whereClause)
    match
      (if stmt.joins.length > 0 then
        executeJoins fmtF64 db stmt.tableName rows0 stmt.joins
      else .ok rows0) with
    | .error e => .error e
    | .ok rows1 =>
      let rows2 := if stmt.orderBy.length > 0 then applyOrderBy fmtF64 rows1 stmt.orderBy
        else rows1
      let rows3 :=
        if 0 < stmt.offset then
          (if stmt.offset < rows2.length then rows2.drop stmt.offset else [])
        else rows2
      let rows4 :=
        if 0 < stmt.limit ∧ stmt.limit < rows3.length then rows3.take stmt.limit else rows3
      let columns :=
        if stmt.columns.length = 1 ∧ stmt.columns.headD "" = "*" then
          (if stmt.joins.length > 0 then
            table.columns.map (fun c => stmt.tableName ++ "." ++ c.name) ++
            stmt.joins.flatMap (fun j =>
              match db.find? (fun kv => kv.1 = j.table) with
              | some (_, jt) => jt.columns.map (fun c => j.table ++ "." ++ c.name)
              | none => [])
          else table.columns.map (fun c => c.name))
        else stmt.columns
      let rows5 :=
        if stmt.joins.length > 0 ∧ columns.length > 0 then
          rows4.map (fun r => projectRow r columns)
        else rows4
      .ok (rows5, columns)

/-! ## Vectors and distances (internal/storage/vector.go)

Go computes distances in IEEE float64.  The model computes over exact
rationals, with `Rat.sqrt` standing in for `math.Sqrt` (they agree on
perfect squares such as 0 and 1).  Vector components are float32
values, widened exactly to float64 by Go before any arithmetic; the
model carries their exact rational values.  Every concrete distance a
claim evaluates uses only components 0 and 1, where all Go operations
are exact, so the two semantics coincide there; no claim depends on
rounding. -/

/-- Rational multiplication in the normalize-based form of
`Rat.mul_def`.  `Rat.mul`, `Rat.inv` and `Rat.sub` are irreducible, so
terms built from them do not evaluate inside `decide`; the distance
definitions below use these provably-equal reducible forms instead. -/

def qmul (a b : ℚ) : ℚ :=
  Rat.normalize (a.num * b.num) (a.den * b.den) (Nat.mul_ne_zero a.den_nz b.den_nz)

/-- Rational addition in the `mkRat` form of `Rat.add_def'`. -/

def qadd (a b : ℚ) : ℚ := mkRat (a.num * b.den + b.num * a.den) (a.den * b.den)

/-- Sum of a list of rationals through `qadd`. -/

def qsum (l : List ℚ) : ℚ := l.foldr qadd 0

/-- Rational subtraction in the `mkRat` form of `Rat.sub_def'`. -/

def qsub (a b : ℚ) : ℚ := mkRat (a.num * b.den - b.num * a.den) (a.den * b.den)

/-- Rational division in the `divInt` form of `Rat.div_def'`. -/

def qdiv (a b : ℚ) : ℚ := Rat.divInt (a.num * b.den) (a.den * b.num)

/-- A `*storage.Vector` in the numeric world: `Dimensions` plus the
exact values of its float32 components. -/

structure Vec where
  dims : Nat
  values : List ℚ
deriving DecidableEq, Repr

/-- `storage.VectorDistance` (the three metric tags). -/

inductive VectorDistance where
  | cosine
  | l2
  | innerProd
deriving DecidableEq, Repr

/-- `CosineSimilarity` (vector.go): dimension check, the three
accumulators, zero-norm guard returning exactly 0.  (The Go nil-vector
check cannot fire in the model: a `Vec` is never nil.) -/

def cosineSimilarity (a b : Vec) : Except GoError ℚ :=
  if a.dims ≠ b.dims then .error .dimensionMismatch
  else
    let dot := qsum ((List.range a.dims).map
      (fun i => qmul (a.values.getD i 0) (b.values.getD i 0)))
    let na := Rat.sqrt (qsum ((List.range a.dims).map
      (fun i => qmul (a.values.getD i 0) (a.values.getD i 0))))
    let nb := Rat.sqrt (qsum ((List.range a.dims).map
      (fun i => qmul (b.values.getD i 0) (b.values.getD i 0))))
    if na = 0 ∨ nb = 0 then .ok 0
    else .ok (qdiv dot (qmul na nb))

/-- `CosineDistance` (vector.go): 1 minus the similarity. -/

def cosineDistance (a b : Vec) : Except GoError ℚ :=
  match cosineSimilarity a b with
  | .error e => .error e
  | .ok s => .ok (qsub 1 s)

/-- `L2Distance` (vector.go). -/

def l2Distance (a b : Vec) : Except GoError ℚ :=
  if a.dims ≠ b.dims then .error .dimensionMismatch
  else
    .ok (Rat.sqrt (qsum ((List.range a.dims).map
      (fun i =>
        qmul (qsub (a.values.getD i 0) (b.values.getD i 0))
          (qsub (a.values.getD i 0) (b.values.getD i 0))))))

/-- `InnerProduct` (vector.go). -/

def innerProduct (a b : Vec) : Except GoError ℚ :=
  if a.dims ≠ b.dims then .error .dimensionMismatch
  else
    .ok (qsum ((List.range a.dims).map
      (fun i => qmul (a.values.getD i 0) (b.values.getD i 0))))

/-- `CalculateDistance` (vector.go): its own dimension check, then
dispatch (inner product negated so smaller means closer). -/

def calculateDistance (a b : Vec) (metric : VectorDistance) : Except GoError ℚ :=
  if a.dims ≠ b.dims then .error .dimensionMismatch
  else
    match metric with
    | .cosine => cosineDistance a b
    | .l2 => l2Distance a b
    | .innerProd =>
      match innerProduct a b with
      | .error e => .error e
      | .ok p => .ok (-p)

/-- `VectorSearch` (vector.go), the brute-force path: score every row
holding a vector in the column, sort ascending by distance, truncate.
The source sorts with an in-place exchange loop; it is modelled by the
stable merge sort (both produce an ascending order; no claim depends
on the order among equal distances on this path). -/

def vectorSearch (rows : List Row) (query : Vec) (vectorColumn : String)
    (metric : VectorDistance) (lim : Nat) : List (Row × ℚ) :=
  let scored := rows.filterMap (fun row =>
    match rowGet row vectorColumn with
    | some (.vvec dims vals) =>
      match calculateDistance query ⟨dims, vals.map f32ToQ⟩ metric with
      | .ok d => some (row, d)
      | .error _ => none
    | _ => none)
  let sorted := scored.mergeSort (fun x y => decide (x.2 ≤ y.2))
  if 0 < lim ∧ lim < sorted.length then sorted.take lim else sorted

/-! ## HNSW index (internal/storage/hnsw.go)

The graph is `[]map[int][]int`; each layer map is an association list.
`EntryPoint` keeps the Go sentinel -1.  The two unbounded Go loops
(greedy descent and layer search) are given explicit fuel of
`|vectors| + 1`: the greedy loop moves to a strictly closer node each
pass and the layer search pushes each node at most once (nodes are
marked visited when pushed), so both loops iterate at most `|vectors|`
times and the fuel is never exhausted. -/

structure HNSWIndex where
  vectors : List Vec
  rowIds : List Nat
  graph : List (List (Nat × List Nat))
  entryPoint : Int
  maxLayers : Nat
  m : Nat
  efConstruction : Nat
  metric : VectorDistance
deriving Repr

/-- `NewHNSWIndex` (hnsw.go): empty arrays, entry point -1, 16 layers
maximum, caller-chosen `M`, `efConstruction` and metric. -/

def newHNSWIndex (m efConstruction : Nat) (metric : VectorDistance) : HNSWIndex :=
  { vectors := [], rowIds := [], graph := [], entryPoint := -1,
    maxLayers := 16, m := m, efConstruction := efConstruction, metric := metric }

/-- Go map read `graph[layer][node]` with its presence flag. -/

def layerGet (graph : List (List (Nat × List Nat))) (layer node : Nat) :
    Option (List Nat) :=
  ((graph.getD layer []).find? (fun kv => kv.1 = node)).map (fun kv => kv.2)

/-- Go map write `graph[layer][node] = v`. -/

def layerSet (graph : List (List (Nat × List Nat))) (layer node : Nat)
    (v : List Nat) : List (List (Nat × List Nat)) :=
  let g := graph.getD layer []
  let g' := if (g.find? (fun kv => kv.1 = node)).isSome then
      g.map (fun kv => if kv.1 = node then (node, v) else kv)
    else g ++ [(node, v)]
  graph.set layer g'

/-- The neighbor scan of one pass of `findClosestInLayer`'s greedy
loop: running best node, best distance, and whether anything improved. -/

def fclScan (idx : HNSWIndex) (query : Vec) (neighbors : List Nat)
    (closest : Nat) (closestDist : ℚ) : Nat × ℚ × Bool :=
  neighbors.foldl
    (fun st nid =>
      if idx.vectors.length ≤ nid then st
      else
        match calculateDistance query (idx.vectors.getD nid ⟨0, []⟩) idx.metric with
        | .error _ => st
        | .ok dist => if dist < st.2.1 then (nid, dist, true) else st)
    (closest, closestDist, false)

/-- The `for changed` loop of `findClosestInLayer`, with fuel. -/

def fclLoop (idx : HNSWIndex) (query : Vec) (layer : Nat) :
    Nat → Nat → ℚ → Nat
  | 0, closest, _ => closest
  | fuel + 1, closest, closestDist =>
    match layerGet idx.graph layer closest with
    | none => closest
    | some neighbors =>
      match fclScan idx query neighbors closest closestDist with
      | (c', d', true) => fclLoop idx query layer fuel c' d'
      | (c', _, false) => c'

/-- `findClosestInLayer` (hnsw.go): greedy move to a strictly closer
neighbor until none improves.  The error of the initial distance
computation is discarded by the source (`closestDist, _ := ...`),
leaving 0 in that case. -/

def findClosestInLayer (idx : HNSWIndex) (query : Vec) (ep layer : Nat) : Nat :=
  if idx.graph.length ≤ layer then ep
  else
    fclLoop idx query layer (idx.vectors.length + 1) ep
      ((calculateDistance query (idx.vectors.getD ep ⟨0, []⟩) idx.metric).toOption.getD 0)

/-- Insert into the candidate min-heap, keyed by distance.  Go's
`container/heap` leaves the order of equal keys unspecified; the model
keeps earlier-pushed items first (no claim depends on tie order). -/

def pqPush (pq : List (Nat × ℚ)) (item : Nat × ℚ) : List (Nat × ℚ) :=
  match pq with
  | [] => [item]
  | x :: rest => if item.2 < x.2 then item :: x :: rest else x :: pqPush rest item

/-- The neighbor-expansion step of `searchLayer`: mark unvisited
in-range neighbors visited, push those whose distance computes. -/

def slExpand (idx : HNSWIndex) (query : Vec) (neighbors : List Nat)
    (visited : List Nat) (pq : List (Nat × ℚ)) : List Nat × List (Nat × ℚ) :=
  neighbors.foldl
    (fun st nid =>
      if st.1.contains nid ∨ idx.vectors.length ≤ nid then st
      else
        match calculateDistance query (idx.vectors.getD nid ⟨0, []⟩) idx.metric with
        | .error _ => (nid :: st.1, st.2)
        | .ok dist => (nid :: st.1, pqPush st.2 (nid, dist)))
    (visited, pq)

/-- The pop loop of `searchLayer`, with fuel: pop the closest
candidate, stop once `ef` results are collected, record it, push its
unvisited neighbors. -/

def slLoop (idx : HNSWIndex) (query : Vec) (layer ef : Nat) :
    Nat → List Nat → List (Nat × ℚ) → List (Nat × ℚ) → List (Nat × ℚ)
  | 0, _, _, results => results
  | fuel + 1, visited, pq, results =>
    match pq with
    | [] => results
    | current :: pqRest =>
      if ef ≤ results.length then results
      else
        let results' := results ++ [current]
        match layerGet idx.graph layer current.1 with
        | none => slLoop idx query layer ef fuel visited pqRest results'
        | some neighbors =>
          let (visited', pq') := slExpand idx query neighbors visited pqRest
          slLoop idx query layer ef fuel visited' pq' results'

/-- `searchLayer` (hnsw.go): candidates in pop order.  The entry
point's distance error is discarded by the source (`dist, _ := ...`). -/

def searchLayer (idx : HNSWIndex) (query : Vec) (ep ef layer : Nat) :
    List (Nat × ℚ) :=
  if idx.graph.length ≤ layer then []
  else
    let dist := (calculateDistance query (idx.vectors.getD ep ⟨0, []⟩)
      idx.metric).toOption.getD 0
    slLoop idx query layer ef (idx.vectors.length + 1) [ep] [(ep, dist)] []

/-- The descent `for l := len(graph)-1; l > 0; l--` of `Search`. -/

def descendLayers (idx : HNSWIndex) (query : Vec) : Nat → Nat → Nat
  | ep, 0 => ep
  | ep, l + 1 => descendLayers idx query (findClosestInLayer idx query ep (l + 1)) l

/-- `HNSWIndex.Search` (hnsw.go): empty for an empty index; otherwise
greedy descent to layer 0, layer search with width `ef`, then up to
`k` results in pop order, each a row id with its distance (the source
wraps the id in a one-key row). -/

def hnswSearch (idx : HNSWIndex) (query : Vec) (k ef : Nat) : List (Nat × ℚ) :=
  if idx.entryPoint = -1 then []
  else
    let ep := descendLayers idx query idx.entryPoint.toNat (idx.graph.length - 1)
    let candidates := searchLayer idx query ep ef 0
    (candidates.take k).filterMap
      (fun c => if c.1 < idx.rowIds.length then some (idx.rowIds.getD c.1 0, c.2) else none)

/-- `h.Graph` extension of `Add`: append empty layer maps while
`len(graph) <= layer`. -/

def extendGraph (g : List (List (Nat × List Nat))) (upTo : Nat) :
    List (List (Nat × List Nat)) :=
  g ++ List.replicate (upTo - g.length) []

/-- `connectNeighbors` (hnsw.go): bidirectional links to up to `m`
(doubled at layer 0) of the candidates, truncating a neighbor's list
by first-insertion order when it exceeds the cap. -/

def connectNeighbors (idx : HNSWIndex) (id : Nat) (candidates : List (Nat × ℚ))
    (layer : Nat) : HNSWIndex :=
  let mm := if layer = 0 then idx.m * 2 else idx.m
  let selected := candidates.take mm
  selected.foldl
    (fun idx nb =>
      let g1 := layerSet idx.graph layer id ((layerGet idx.graph layer id).getD [] ++ [nb.1])
      let g2 := layerSet g1 layer nb.1 ((layerGet g1 layer nb.1).getD [] ++ [id])
      let lst := (layerGet g2 layer nb.1).getD []
      let g3 := if mm < lst.length then layerSet g2 layer nb.1 (lst.take mm) else g2
      { idx with graph := g3 })
    idx

/-- The descent `for l := len(graph)-1; l > layer; l--` of `Add`. -/

def addDescend (idx : HNSWIndex) (vec : Vec) (stopLayer : Nat) :
    Nat → Nat → Nat
  | ep, 0 => ep
  | ep, l + 1 =>
    if stopLayer < l + 1 then
      addDescend idx vec stopLayer (findClosestInLayer idx vec ep (l + 1)) l
    else ep

/-- The connect loop `for l := layer; l >= 0; l--` of `Add`. -/

def addConnect (vec : Vec) (id : Nat) : HNSWIndex → Nat → Nat → HNSWIndex
  | idx, ep, l =>
    let candidates := searchLayer idx vec ep idx.efConstruction l
    let idx' := connectNeighbors idx id candidates l
    let ep' := if candidates.isEmpty then ep else (candidates.headD (0, 0)).1
    match l with
    | 0 => idx'
    | Nat.succ l' => addConnect vec id idx' ep' l'

/-- `HNSWIndex.Add` (hnsw.go) with the randomly drawn node layer made
an explicit argument (`randomLayer` draws it from `rand.Float64`;
every draw lies in `[0, maxLayers]`).  Append the vector and row id,
extend and initialise the graph, then either become the entry point or
descend and connect. -/

def addWithLayer (idx : HNSWIndex) (vec : Vec) (rowId : Nat) (layer : Nat) :
    HNSWIndex :=
  let id := idx.vectors.length
  let idx1 := { idx with
    vectors := idx.vectors ++ [vec], rowIds := idx.rowIds ++ [rowId] }
  let g1 := extendGraph idx1.graph (layer + 1)
  let g2 := (List.range (layer + 1)).foldl (fun g l => layerSet g l id []) g1
  let idx2 := { idx1 with graph := g2 }
  if idx.entryPoint = -1 then { idx2 with entryPoint := (id : Int) }
  else
    let ep0 := idx.entryPoint.toNat
    let ep1 := addDescend idx2 vec layer ep0 (idx2.graph.length - 1)
    addConnect vec id idx2 ep1 layer

/-! ## Executor: vector search path and CREATE INDEX (executor.go) -/

/-- `parser.VectorOrderBy`: the distance function name, target column
and parsed query literal (float32 components, carried exactly). -/

structure VectorOrderBy where
  function : String
  column : String
  queryVector : List ℚ
  descending : Bool
deriving Repr

/-- The search phase of `executeVectorSearch` (executor.go): metric
from the function name, `limit` defaulting to the row count, HNSW
search with `ef = max(50, 2*limit)` when the column has an index
(mapping returned row ids back into the WHERE-filtered rows, keeping
the placeholder id row when out of range), brute force otherwise.
In the index branch the chosen `metric` is never passed on: the index
searches with its own stored metric. -/

def executeVectorSearchCore (vob : VectorOrderBy) (stmtLimit : Nat)
    (rows : List Row) (indexes : List (String × HNSWIndex)) :
    Except GoError (List (Row × ℚ)) :=
  let queryVector : Vec := ⟨vob.queryVector.length, vob.queryVector⟩
  match
    (if vob.function = "COSINE_DISTANCE" then some VectorDistance.cosine
     else if vob.function = "L2_DISTANCE" then some VectorDistance.l2
     else none) with
  | none => .error .unsupportedDistanceFn
  | some metric =>
    let lim := if 0 < stmtLimit then stmtLimit else rows.length
    match indexes.find? (fun kv => kv.1 = vob.column) with
    | some (_, index) =>
      let ef := if lim * 2 < 50 then 50 else lim * 2
      .ok ((hnswSearch index queryVector lim ef).map
        (fun rc =>
          if rc.1 < rows.length then (rows.getD rc.1 [], rc.2)
          else ([("_row_id", Value.vint (rc.1 : Int))], rc.2)))
    | none => .ok (vectorSearch rows queryVector vob.column metric lim)

/-- The index-building loop of `executeCreateIndex` for rows holding a
vector in the indexed column, row positions as row ids; one random
layer draw is consumed per added vector. -/

def buildHNSWAux (colName : String) (idx : HNSWIndex) (draws : List Nat) :
    List (Nat × Row) → HNSWIndex
  | [] => idx
  | (i, row) :: rest =>
    match rowGet row colName with
    | some (.vvec dims vals) =>
      buildHNSWAux colName (addWithLayer idx ⟨dims, vals.map f32ToQ⟩ i (draws.headD 0))
        draws.tail rest
    | _ => buildHNSWAux colName idx draws rest

/-- `executeCreateIndex` (executor.go), the HNSW branch: `m` and
`ef_construction` from the options map (0 when absent, as a Go map
read), the metric hard-coded to `storage.DistanceCosine`, the index
built from the table's rows. -/

def executeCreateIndexHNSW (tableRows : List Row) (colName : String)
    (options : List (String × Nat)) (draws : List Nat) : HNSWIndex :=
  let m := ((options.find? (fun kv => kv.1 = "m")).map (fun kv => kv.2)).getD 0
  let efC := ((options.find? (fun kv => kv.1 = "ef_construction")).map
    (fun kv => kv.2)).getD 0
  buildHNSWAux colName (newHNSWIndex m efC .cosine) draws tableRows.enum

/-! ## Claim C9: cosine distance on zero-norm and mismatched vectors -/

/-- The scenario table of the spec: t(a INT, b INT) holding
(1,10), (2,20), (3,30). -/

def c3Table : Table :=
  { name := "t",
    columns := [⟨"a", .tInt, 0, false, false, none⟩, ⟨"b", .tInt, 0, false, false, none⟩],
    rows := [[("a", .vint 1), ("b", .vint 10)],
             [("a", .vint 2), ("b", .vint 20)],
             [("a", .vint 3), ("b", .vint 30)]],
    pages := [] }

/-- The parsed WHERE of the first scenario query: b >= 20 AND a != 2
(parseWhere chains the second conjunct through the And field). -/

def c3AndWhere : ParserWhere :=
  .node "b" ">=" (.vint 20) (some (.node "a" "!=" (.vint 2) none none)) none

/-- The parsed WHERE of the second scenario query: b = 10 OR b = 30. -/

def c3OrWhere : ParserWhere :=
  .node "b" "=" (.vint 10) none (some (.node "b" "=" (.vint 30) none none))

/-- The scenario SELECT over t with the given WHERE tree. -/

def c3Stmt (w : ParserWhere) : SelectStmt :=
  { columns := ["a"], tableName := "t", whereClause := some w,
    joins := [], orderBy := [], limit := 0, offset := 0 }

/-- A two-vector index built through Add (both layer draws 0): the
entry point holds (0, 1), the second vector (1, 0), row ids 10 and 11. -/

def c7Index : HNSWIndex :=
  addWithLayer (addWithLayer (newHNSWIndex 8 50 .cosine) ⟨2, [0, 1]⟩ 10 0) ⟨2, [1, 0]⟩ 11 0

/-- The departments table of the spec scenario: (1, Eng), (2, Sales). -/

def c4Departments : Table :=
  { name := "departments",
    columns := [⟨"id", .tInt, 0, false, false, none⟩,
                ⟨"name", .tText, 0, false, false, none⟩],
    rows := [[("id", .vint 1), ("name", .vstr [69, 110, 103])],
             [("id", .vint 2), ("name", .vstr [83, 97, 108, 101, 115])]],
    pages := [] }

/-- The employees table of the spec scenario: (1, A, 1), (2, B, 2),
(3, C, 1). -/

def c4Employees : Table :=
  { name := "employees",
    columns := [⟨"id", .tInt, 0, false, false, none⟩,
                ⟨"name", .tText, 0, false, false, none⟩,
                ⟨"dept_id", .tInt, 0, false, false, none⟩],
    rows := [[("id", .vint 1), ("name", .vstr [65]), ("dept_id", .vint 1)],
             [("id", .vint 2), ("name", .vstr [66]), ("dept_id", .vint 2)],
             [("id", .vint 3), ("name", .vstr [67]), ("dept_id", .vint 1)]],
    pages := [] }

/-- The scenario table of the spec: t(id INT, name VARCHAR(10)), no rows. -/

def c5VarcharTable : Table :=
  { name := "t",
    columns := [⟨"id", .tInt, 0, false, false, none⟩,
                ⟨"name", .tVarChar, 10, false, false, none⟩],
    rows := [], pages := [] }

/-- A table with a single nullable TEXT column. -/

def c5TextTable : Table :=
  { name := "t",
    columns := [⟨"c", .tText, 0, true, false, none⟩],
    rows := [], pages := [] }

/-- One executed mutation against a table: an INSERT tuple through the
executor's pipeline, or a DELETE with an optional WHERE leaf. -/

inductive TableOp where
  | ins (cns : List String) (vs : List Value)
  | del (w : Option WhereClause)

/-- Apply one operation, keeping the resulting table. -/

def applyOp (F : Nat → List Nat) (sF : List Nat → Option Nat)
    (db : List (String × Table)) (t : Table) : TableOp → Table
  | .ins cns vs => (execInsertRow F sF db t cns vs).1
  | .del w => (tableDelete F t w).1

/-- Apply a sequence of operations left to right. -/

def applyOps (F : Nat → List Nat) (sF : List Nat → Option Nat)
    (db : List (String × Table)) (t : Table) (ops : List TableOp) : Table :=
  ops.foldl (applyOp F sF db) t

/-- The invariant: every primary-key column is present and non-nil in
every row, and compares unequal across distinct rows. -/

def pkOK (F : Nat → List Nat) (t : Table) : Prop :=
  ∀ c ∈ t.columns, c.isPrimary = true →
    (∀ r ∈ t.rows, rowGet r c.name ≠ none ∧ rowGet r c.name ≠ some Value.vnull) ∧
    t.rows.Pairwise (fun r1 r2 =>
      compareVal F (rowGetD r1 c.name) (rowGetD r2 c.name) ≠ 0)

/-! ## Theorems -/

theorem readU16_u16le (n : Nat) (rest : List Nat) :
    readU16 (u16le n ++ rest) = n % 2 ^ 16 := by
  simp [readU16, u16le]; omega

theorem readU32_u32le (n : Nat) (rest : List Nat) :
    readU32 (u32le n ++ rest) = n % 2 ^ 32 := by
  simp [readU32, u32le]; omega

theorem readU64_u64le (n : Nat) (rest : List Nat) :
    readU64 (u64le n ++ rest) = n % 2 ^ 64 := by
  simp [readU64, u64le]; omega

/-! ## Data model (internal/storage/types.go, table.go) -/

/-! ## Codec round-trip lemmas -/

theorem readU16_cons (a b : Nat) (t : List Nat) : readU16 (a :: b :: t) = a + 2 ^ 8 * b := by
  simp [readU16]

theorem readU32_cons (a b c d : Nat) (t : List Nat) :
    readU32 (a :: b :: c :: d :: t) = a + 2 ^ 8 * b + 2 ^ 16 * c + 2 ^ 24 * d := by
  simp [readU32]

theorem readU64_cons (a b c d e f g h : Nat) (t : List Nat) :
    readU64 (a :: b :: c :: d :: e :: f :: g :: h :: t) =
      a + 2 ^ 8 * b + 2 ^ 16 * c + 2 ^ 24 * d +
      2 ^ 32 * e + 2 ^ 40 * f + 2 ^ 48 * g + 2 ^ 56 * h := by
  simp [readU64]

theorem decodeF32s_spec (vals : List Nat) (hb : ∀ x ∈ vals, x < 2 ^ 32)
    (acc rest : List Nat) :
    decodeF32s vals.length acc (vals.flatMap u32le ++ rest) =
      .ok (acc.reverse ++ vals, rest) := by
  induction vals generalizing acc with
  | nil => simp [decodeF32s]
  | cons x xs ih =>
    simp only [List.flatMap_cons, List.length_cons]
    have hx : x < 2 ^ 32 := hb x (by simp)
    have hxs : ∀ y ∈ xs, y < 2 ^ 32 := fun y hy => hb y (by simp [hy])
    simp only [u32le, List.cons_append, List.append_assoc]
    rw [decodeF32s]
    simp only [List.length_cons, readU32_cons]
    rw [if_neg (by simp)]
    have : x % 256 + 2 ^ 8 * (x / 2 ^ 8 % 256) + 2 ^ 16 * (x / 2 ^ 16 % 256) +
        2 ^ 24 * (x / 2 ^ 24 % 256) = x := by omega
    rw [List.drop_succ_cons, List.drop_succ_cons, List.drop_succ_cons,
      List.drop_succ_cons, List.drop_zero, this]
    rw [List.nil_append, ih hxs (x :: acc)]
    simp

theorem asInt32_emod (i : Int) (h1 : -(2 ^ 31) ≤ i) (h2 : i < 2 ^ 31) :
    asInt32 ((i % (2 ^ 32 : Int)).toNat) = i := by
  simp only [asInt32]
  split_ifs with h <;> omega

theorem asInt64_emod (i : Int) (h1 : -(2 ^ 63) ≤ i) (h2 : i < 2 ^ 63) :
    asInt64 ((i % (2 ^ 64 : Int)).toNat) = i := by
  simp only [asInt64]
  split_ifs with h <;> omega

theorem decodeTyped_encodeTyped (fmtF64 : Nat → List Nat) (t : DataType) (v : Value)
    (rest : List Nat) (hm : valueMatches t v = true) (hv : v ≠ Value.vnull) :
    ∃ e, encodeTyped fmtF64 t v = .ok e ∧ decodeTyped t (e ++ rest) = .ok (v, rest) := by
  cases t <;> cases v <;>
    simp only [valueMatches, Bool.and_eq_true, decide_eq_true_eq, ne_eq,
      not_false_eq_true, Bool.false_eq_true, List.all_eq_true] at hm hv ⊢ <;>
    try exact absurd trivial hv
  case tInt.vint i =>
    refine ⟨_, rfl, ?_⟩
    simp only [encodeTyped, toInt, u32le, List.cons_append, List.nil_append, decodeTyped]
    rw [if_neg (by simp)]
    simp only [readU32_cons, List.drop_succ_cons, List.drop_zero]
    have hx : ((i % (2 ^ 32 : Int)).toNat) < 2 ^ 32 := by omega
    have : (i % (2 ^ 32 : Int)).toNat % 256 +
        2 ^ 8 * ((i % (2 ^ 32 : Int)).toNat / 2 ^ 8 % 256) +
        2 ^ 16 * ((i % (2 ^ 32 : Int)).toNat / 2 ^ 16 % 256) +
        2 ^ 24 * ((i % (2 ^ 32 : Int)).toNat / 2 ^ 24 % 256) = (i % (2 ^ 32 : Int)).toNat := by
      omega
    rw [this, asInt32_emod i hm.1 hm.2]
  case tBigInt.vint64 i =>
    refine ⟨_, rfl, ?_⟩
    simp only [encodeTyped, toInt64, u64le, List.cons_append, List.nil_append, decodeTyped]
    rw [if_neg (by simp)]
    simp only [readU64_cons, List.drop_succ_cons, List.drop_zero]
    have : (i % (2 ^ 64 : Int)).toNat % 256 +
        2 ^ 8 * ((i % (2 ^ 64 : Int)).toNat / 2 ^ 8 % 256) +
        2 ^ 16 * ((i % (2 ^ 64 : Int)).toNat / 2 ^ 16 % 256) +
        2 ^ 24 * ((i % (2 ^ 64 : Int)).toNat / 2 ^ 24 % 256) +
        2 ^ 32 * ((i % (2 ^ 64 : Int)).toNat / 2 ^ 32 % 256) +
        2 ^ 40 * ((i % (2 ^ 64 : Int)).toNat / 2 ^ 40 % 256) +
        2 ^ 48 * ((i % (2 ^ 64 : Int)).toNat / 2 ^ 48 % 256) +
        2 ^ 56 * ((i % (2 ^ 64 : Int)).toNat / 2 ^ 56 % 256) = (i % (2 ^ 64 : Int)).toNat := by
      omega
    rw [this, asInt64_emod i hm.1 hm.2]
  case tFloat.vfloat bits =>
    refine ⟨_, rfl, ?_⟩
    simp only [encodeTyped, toFloat64Bits, u64le, List.cons_append, List.nil_append, decodeTyped]
    rw [if_neg (by simp)]
    simp only [readU64_cons, List.drop_succ_cons, List.drop_zero]
    have : bits % 256 + 2 ^ 8 * (bits / 2 ^ 8 % 256) + 2 ^ 16 * (bits / 2 ^ 16 % 256) +
        2 ^ 24 * (bits / 2 ^ 24 % 256) + 2 ^ 32 * (bits / 2 ^ 32 % 256) +
        2 ^ 40 * (bits / 2 ^ 40 % 256) + 2 ^ 48 * (bits / 2 ^ 48 % 256) +
        2 ^ 56 * (bits / 2 ^ 56 % 256) = bits := by omega
    rw [this]
  case tBoolean.vbool b =>
    refine ⟨_, rfl, ?_⟩
    simp only [encodeTyped, toBool, decodeTyped, List.cons_append]
    rw [if_neg (by simp)]
    cases b <;> simp
  case tText.vstr s =>
    refine ⟨_, rfl, ?_⟩
    simp only [encodeTyped, goString, u32le, List.cons_append, List.nil_append,
      List.append_assoc, decodeTyped]
    rw [if_neg (by simp)]
    simp only [readU32_cons, List.drop_succ_cons, List.drop_zero]
    have hrec : s.length % 256 + 2 ^ 8 * (s.length / 2 ^ 8 % 256) +
        2 ^ 16 * (s.length / 2 ^ 16 % 256) + 2 ^ 24 * (s.length / 2 ^ 24 % 256) = s.length := by
      omega
    rw [hrec, if_neg (by simp), List.take_left, List.drop_left]
  case tVarChar.vstr s =>
    refine ⟨_, rfl, ?_⟩
    simp only [encodeTyped, goString, u32le, List.cons_append, List.nil_append,
      List.append_assoc, decodeTyped]
    rw [if_neg (by simp)]
    simp only [readU32_cons, List.drop_succ_cons, List.drop_zero]
    have hrec : s.length % 256 + 2 ^ 8 * (s.length / 2 ^ 8 % 256) +
        2 ^ 16 * (s.length / 2 ^ 16 % 256) + 2 ^ 24 * (s.length / 2 ^ 24 % 256) = s.length := by
      omega
    rw [hrec, if_neg (by simp), List.take_left, List.drop_left]
  case tVector.vvec dims vals =>
    refine ⟨_, rfl, ?_⟩
    simp only [encodeTyped, u32le, List.cons_append, List.nil_append,
      List.append_assoc, decodeTyped]
    rw [if_neg (by simp)]
    simp only [readU32_cons, List.drop_succ_cons, List.drop_zero]
    have hrec : dims % 256 + 2 ^ 8 * (dims / 2 ^ 8 % 256) +
        2 ^ 16 * (dims / 2 ^ 16 % 256) + 2 ^ 24 * (dims / 2 ^ 24 % 256) = dims := by
      omega
    rw [hrec, hm.1.1, decodeF32s_spec vals (fun x hx => hm.1.2 x hx) [] rest]
    simp [hm.1.1]

theorem decodeCols_encodeCols (fmtF64 : Nat → List Nat) (cols : List Column) (row : Row)
    (hsupp : ∀ c ∈ cols, c.type ≠ DataType.tInvalid)
    (hmatch : ∀ c ∈ cols, ∀ v, rowGet row c.name = some v → valueMatches c.type v = true) :
    ∃ body, encodeCols fmtF64 cols row = .ok body ∧
      ∀ tail, decodeCols cols (body ++ tail) =
        .ok (cols.map fun c => (c.name, nrmVal (rowGet row c.name))) := by
  induction cols with
  | nil => exact ⟨[], rfl, fun tail => by simp [decodeCols]⟩
  | cons c rest ih =>
    obtain ⟨body, hbody, hdec⟩ :=
      ih (fun c hc => hsupp c (by simp [hc])) (fun c hc => hmatch c (by simp [hc]))
    cases hrg : rowGet row c.name with
    | none =>
      refine ⟨u16le 1 ++ body, ?_, ?_⟩
      · simp [encodeCols, hrg, hbody]
      · intro tail
        rw [decodeCols]
        simp only [u16le, List.cons_append, List.nil_append]
        rw [if_neg (by simp)]
        have hflag : readU16 (1 % 256 :: 1 / 2 ^ 8 % 256 :: (body ++ tail)) = 1 := by
          rw [readU16_cons]; norm_num
        rw [if_pos (by rw [hflag])]
        simp [hdec tail, hrg, nrmVal]
    | some v =>
      cases hveq : decide (v = Value.vnull) with
      | true =>
        have hv : v = Value.vnull := of_decide_eq_true hveq
        subst hv
        refine ⟨u16le 1 ++ body, ?_, ?_⟩
        · simp [encodeCols, hrg, hbody]
        · intro tail
          rw [decodeCols]
          simp only [u16le, List.cons_append, List.nil_append]
          rw [if_neg (by simp)]
          have hflag : readU16 (1 % 256 :: 1 / 2 ^ 8 % 256 :: (body ++ tail)) = 1 := by
            rw [readU16_cons]; norm_num
          rw [if_pos (by rw [hflag])]
          simp [hdec tail, hrg, nrmVal]
      | false =>
        have hv : v ≠ Value.vnull := of_decide_eq_false hveq
        obtain ⟨e, henc, hdece⟩ :=
          decodeTyped_encodeTyped fmtF64 c.type v (body)
            (hmatch c (by simp) v hrg) hv
        refine ⟨u16le 0 ++ e ++ body, ?_, ?_⟩
        · cases v <;> simp_all [encodeCols, hrg, hbody, henc] <;> rfl
        · intro tail
          rw [decodeCols]
          simp only [u16le, List.cons_append, List.nil_append, List.append_assoc]
          rw [if_neg (by simp)]
          have hflag : readU16 (0 % 256 :: 0 / 2 ^ 8 % 256 :: (e ++ (body ++ tail))) = 0 := by
            rw [readU16_cons]; norm_num
          rw [if_neg (by rw [hflag]; omega), if_neg (hsupp c (by simp))]
          have hdece' := decodeTyped_encodeTyped fmtF64 c.type v (body ++ tail)
            (hmatch c (by simp) v hrg) hv
          obtain ⟨e', henc', hdece''⟩ := hdece'
          have heq : e' = e := by rw [henc] at henc'; exact (Except.ok.injEq _ _).mp henc'.symm
          subst heq
          simp only [List.drop_succ_cons, List.drop_zero, hdece'']
          refine Eq.trans
            (rfl : _ = List.cons (c.name, v) <$> decodeCols rest (body ++ tail)) ?_
          rw [hdec tail]
          simp [hrg, nrmVal, Except.map]

/-- Encoding reads the row only through map lookups, so two rows with
identical lookups encode identically (Go map iteration never enters
`EncodeRow`; the schema drives the order). -/

theorem encodeCols_ext (fmtF64 : Nat → List Nat) (cols : List Column) (row row₂ : Row)
    (h : ∀ k, rowGet row k = rowGet row₂ k) :
    encodeCols fmtF64 cols row = encodeCols fmtF64 cols row₂ := by
  induction cols with
  | nil => rfl
  | cons c rest ih =>
    rw [encodeCols, encodeCols, ← h c.name]
    cases rowGet row c.name with
    | none => rw [ih]
    | some v => cases v <;> rw [ih]

/-- C1: For every schema S (a column list using only the supported
types and the format's size bounds: fewer than 2^16 columns, since the
format stores the column count in a `u16` field) and every row r whose
keys are a subset of S's column names and whose values match their
columns' types, `DecodeRow(S, EncodeRow(S, r))` returns a row equal to
r, with absent keys (and keys bound to nil) decoded as null: the
decoded row binds each schema column, in schema order, to r's value
there, or to null when the key is absent or nil.  EncodeRow is
deterministic: any row with the same map lookups — in particular a
second call on the very same (S, r) — yields the identical byte
sequence. -/

theorem C1_codec_roundtrip (fmtF64 : Nat → List Nat) (cols : List Column) (row : Row)
    (hsupp : ∀ c ∈ cols, c.type ≠ DataType.tInvalid)
    (hcount : cols.length < 2 ^ 16)
    (_hkeys : ∀ kv ∈ row, ∃ c ∈ cols, c.name = kv.1)
    (hmatch : ∀ c ∈ cols, ∀ v, rowGet row c.name = some v → valueMatches c.type v = true) :
    ∃ buf, encodeRow fmtF64 cols row = .ok buf ∧
      decodeRow cols buf = .ok (cols.map fun c => (c.name, nrmVal (rowGet row c.name))) ∧
      ∀ row₂ : Row, (∀ k, rowGet row k = rowGet row₂ k) →
        encodeRow fmtF64 cols row₂ = .ok buf := by
  obtain ⟨body, hbody, hdec⟩ := decodeCols_encodeCols fmtF64 cols row hsupp hmatch
  refine ⟨u16le cols.length ++ body, ?_, ?_, ?_⟩
  · simp [encodeRow, hbody]
  · rw [decodeRow]
    rw [if_neg (by simp [u16le])]
    rw [if_neg (by rw [readU16_u16le]; omega)]
    have : (u16le cols.length ++ body).drop 2 = body := by simp [u16le]
    rw [this]
    have := hdec []
    simpa using this
  · intro row₂ hsame
    rw [encodeRow, ← encodeCols_ext fmtF64 cols row row₂ hsame, hbody]
    rfl

/-- Applies C1 to the concrete schema (id INT, name VARCHAR(10)) and
the row (id = 7, name = the byte string `ab`). -/

theorem C1_codec_roundtrip_witness :
    ∃ buf,
      encodeRow (fun _ => []) [⟨"id", .tInt, 0, true, false, none⟩,
          ⟨"name", .tVarChar, 10, true, false, none⟩]
          [("id", .vint 7), ("name", .vstr [97, 98])] = .ok buf ∧
      decodeRow [⟨"id", .tInt, 0, true, false, none⟩,
          ⟨"name", .tVarChar, 10, true, false, none⟩] buf =
        .ok [("id", .vint 7), ("name", .vstr [97, 98])] := by
  obtain ⟨buf, he, hd, _⟩ :=
    C1_codec_roundtrip (fun _ => [])
      [⟨"id", .tInt, 0, true, false, none⟩, ⟨"name", .tVarChar, 10, true, false, none⟩]
      [("id", .vint 7), ("name", .vstr [97, 98])]
      (by decide) (by decide) (by decide) (by decide)
  refine ⟨buf, he, ?_⟩
  rw [hd]
  rfl

/-! ## Cross-type comparison (table.go compare, executor.go compareValues) -/

theorem bytesLt_iff_lex (a b : List Nat) : bytesLt a b = true ↔ List.Lex (· < ·) a b := by
  induction a generalizing b with
  | nil =>
    cases b with
    | nil =>
      simp only [bytesLt, Bool.false_eq_true, false_iff]
      intro h; cases h
    | cons y ys =>
      simp only [bytesLt, true_iff]
      exact List.Lex.nil
  | cons x xs ih =>
    cases b with
    | nil =>
      simp only [bytesLt, Bool.false_eq_true, false_iff]
      intro h; cases h
    | cons y ys =>
      rw [bytesLt]
      by_cases hxy : x < y
      · simp [hxy]
        exact List.Lex.rel hxy
      · by_cases hyx : y < x
        · simp [hxy, hyx]
          intro h
          cases h with
          | cons h => omega
          | rel h => omega
        · have hxyeq : x = y := by omega
          subst hxyeq
          simp [hxy, hyx, ih ys]
          constructor
          · exact fun h => List.Lex.cons h
          · intro h
            cases h with
            | cons h => exact h
            | rel h => omega

theorem bytesLt_both_false (a b : List Nat)
    (hab : bytesLt a b = false) (hba : bytesLt b a = false) : a = b := by
  induction a generalizing b with
  | nil => cases b with
    | nil => rfl
    | cons y ys => simp [bytesLt] at hab
  | cons x xs ih =>
    cases b with
    | nil => simp [bytesLt] at hba
    | cons y ys =>
      rw [bytesLt] at hab hba
      by_cases hxy : x < y
      · simp [hxy] at hab
      · by_cases hyx : y < x
        · simp [hxy, hyx] at hab hba
        · have hxyeq : x = y := by omega
          subst hxyeq
          simp [hxy, hyx] at hab hba
          rw [ih ys hab hba]

theorem qdiv_pow_shift (a b c : Nat) (h : b ≤ c) :
    (a : ℚ) * 2 ^ b / 2 ^ c = (a : ℚ) / 2 ^ (c - b) := by
  have h2 : (2 : ℚ) ^ c = 2 ^ (c - b) * 2 ^ b := by
    rw [← pow_add]
    congr 1
    omega
  rw [h2]
  field_simp
  ring

theorem floor_natCast_div_pow (a b : Nat) : ⌊(a : ℚ) / 2 ^ b⌋ = (a / 2 ^ b : Nat) := by
  have h : ((2 ^ b : Nat) : ℚ) = (2 : ℚ) ^ b := by push_cast; ring
  rw [← h, Rat.floor_natCast_div_natCast]
  omega

theorem ratTrunc_zero_of_abs_lt_one (q : ℚ) (h : |q| < 1) : ratTrunc q = 0 := by
  rw [abs_lt] at h
  rw [ratTrunc]
  split_ifs with hq
  · rw [Int.ceil_eq_zero_iff]
    simp only [Set.mem_Ioc]
    exact ⟨by linarith, by linarith⟩
  · rw [Int.floor_eq_zero_iff]
    simp only [Set.mem_Ico]
    exact ⟨by linarith, by linarith⟩

theorem ratTrunc_neg_of_nonneg (M : ℚ) (hM : 0 ≤ M) : ratTrunc (-M) = -⌊M⌋ := by
  rw [ratTrunc]
  by_cases h0 : M = 0
  · subst h0
    norm_num
  · have hMpos : 0 < M := lt_of_le_of_ne hM (Ne.symm h0)
    rw [if_pos (by linarith), Int.ceil_neg]

theorem ratTrunc_of_nonneg (M : ℚ) (hM : 0 ≤ M) : ratTrunc M = ⌊M⌋ := by
  rw [ratTrunc, if_neg (by linarith)]

set_option maxRecDepth 4000 in
/-- Justification of the bit-level truncation model: on finite floats
whose value lies strictly between -2^63 and 2^63, `f64TruncBits` is
exact truncation toward zero of the rational value of the float. -/

theorem f64TruncBits_eq_ratTrunc (bits : Nat) (hfin : f64Finite bits)
    (hlo : -(2 ^ 63 : ℚ) < f64ToQ bits) (hhi : f64ToQ bits < 2 ^ 63) :
    f64TruncBits bits = ratTrunc (f64ToQ bits) := by
  unfold f64Finite at hfin
  unfold f64TruncBits
  unfold f64ToQ at hlo hhi ⊢
  have hmlt : bits % 2 ^ 52 < 2 ^ 52 := Nat.mod_lt _ (by norm_num)
  have hslt : bits / 2 ^ 63 % 2 < 2 := Nat.mod_lt _ (by norm_num)
  have helt : bits / 2 ^ 52 % 2 ^ 11 < 2 ^ 11 := Nat.mod_lt _ (by norm_num)
  revert hfin hlo hhi
  generalize bits / 2 ^ 63 % 2 = s at hslt ⊢
  generalize bits / 2 ^ 52 % 2 ^ 11 = e at helt ⊢
  generalize bits % 2 ^ 52 = m at hmlt ⊢
  intro hfin hlo hhi
  simp only at hlo hhi ⊢
  by_cases he0 : e = 0
  · -- subnormal: |value| < 1, truncation is 0
    subst he0
    rw [if_pos rfl] at hlo hhi ⊢
    rw [if_neg (by norm_num : ¬(0 : Nat) = 2047), if_pos (by norm_num : (0 : Nat) < 1023)]
    have habs : |(if s = 1 then (-1 : ℚ) else 1) * (m : ℚ) / 2 ^ 1074| < 1 := by
      rw [abs_div, abs_mul]
      have h1 : |(if s = 1 then (-1 : ℚ) else 1)| = 1 := by split_ifs <;> simp
      rw [h1, one_mul, abs_of_nonneg (by positivity : (0 : ℚ) ≤ (m : ℚ)),
        abs_of_nonneg (by positivity : (0 : ℚ) ≤ (2 : ℚ) ^ 1074),
        div_lt_one (by positivity)]
      calc (m : ℚ) < ((2 ^ 52 : Nat) : ℚ) := by exact_mod_cast hmlt
        _ ≤ 2 ^ 1074 := by norm_num
    rw [ratTrunc_zero_of_abs_lt_one _ habs]
  · -- normal float
    rw [if_neg he0] at hlo hhi ⊢
    rw [if_neg (by omega : ¬e = 2047)]
    set N : Nat := 2 ^ 52 + m with hN
    set M : ℚ := (N : ℚ) * 2 ^ e / 2 ^ 1075 with hMdef
    have hMpos : 0 < M := by rw [hMdef]; positivity
    by_cases hesmall : e < 1023
    · -- exponent below the bias: |value| < 1, truncation is 0
      rw [if_pos hesmall]
      have hM1 : M < 1 := by
        rw [hMdef, qdiv_pow_shift _ _ _ (by omega), div_lt_one (by positivity)]
        calc (N : ℚ) < ((2 ^ 53 : Nat) : ℚ) := by exact_mod_cast (by omega : N < 2 ^ 53)
          _ = (2 : ℚ) ^ 53 := by push_cast; ring
          _ ≤ 2 ^ (1075 - e) := pow_le_pow_right₀ (by norm_num) (by omega)
      have habs : |(if s = 1 then (-1 : ℚ) else 1) * (N : ℚ) * 2 ^ e / 2 ^ 1075| < 1 := by
        have hsplit : (if s = 1 then (-1 : ℚ) else 1) * (N : ℚ) * 2 ^ e / 2 ^ 1075 =
            (if s = 1 then (-1 : ℚ) else 1) * M := by
          rw [hMdef]; ring
        rw [hsplit, abs_mul]
        have h1 : |(if s = 1 then (-1 : ℚ) else 1)| = 1 := by split_ifs <;> simp
        rw [h1, one_mul, abs_of_nonneg (le_of_lt hMpos)]
        exact hM1
      rw [ratTrunc_zero_of_abs_lt_one _ habs]
    · -- exponent at least the bias: integer part is `mag`
      rw [if_neg hesmall]
      set mag : Nat :=
        (if 52 ≤ e - 1023 then N * 2 ^ (e - 1023 - 52) else N / 2 ^ (52 - (e - 1023)))
        with hmagdef
      have hfloor : ⌊M⌋ = (mag : Int) := by
        rw [hmagdef]
        split_ifs with hbig
        · have hM2 : M = ((N * 2 ^ (e - 1023 - 52) : Nat) : ℚ) := by
            rw [hMdef]
            push_cast
            rw [div_eq_iff (by positivity : (2 : ℚ) ^ 1075 ≠ 0), mul_assoc, ← pow_add,
              show e - 1023 - 52 + 1075 = e from by omega]
          rw [hM2, Int.floor_natCast]
        · have hM2 : M = (N : ℚ) / 2 ^ (52 - (e - 1023)) := by
            rw [hMdef, qdiv_pow_shift _ _ _ (by omega),
              show 1075 - e = 52 - (e - 1023) from by omega]
          rw [hM2, floor_natCast_div_pow]
      by_cases hsign : s = 1
      · -- negative value
        simp only [if_pos hsign] at hlo hhi ⊢
        have hval : (-1 : ℚ) * (N : ℚ) * 2 ^ e / 2 ^ 1075 = -M := by
          rw [hMdef]; ring
        rw [hval] at hlo hhi ⊢
        have hMlt : M < 2 ^ 63 := by linarith
        have hmaglt : (mag : Int) < 2 ^ 63 := by
          rw [← hfloor]
          have h1 : (⌊M⌋ : ℚ) < 2 ^ 63 := lt_of_le_of_lt (Int.floor_le M) hMlt
          exact_mod_cast h1
        rw [ratTrunc_neg_of_nonneg M (le_of_lt hMpos), hfloor, if_neg (by omega)]
      · -- positive value
        simp only [if_neg hsign] at hlo hhi ⊢
        have hval : (1 : ℚ) * (N : ℚ) * 2 ^ e / 2 ^ 1075 = M := by
          rw [hMdef]; ring
        rw [hval] at hlo hhi ⊢
        have hmaglt : (mag : Int) < 2 ^ 63 := by
          rw [← hfloor]
          have h1 : (⌊M⌋ : ℚ) < 2 ^ 63 := lt_of_le_of_lt (Int.floor_le M) hhi
          exact_mod_cast h1
        rw [ratTrunc_of_nonneg M (le_of_lt hMpos), hfloor, if_neg (by omega)]

theorem bytesLt_irrefl (a : List Nat) : bytesLt a a = false := by
  induction a with
  | nil => rfl
  | cons x xs ih => simp [bytesLt, ih]

theorem bytesLt_asymm (a b : List Nat) (h : bytesLt a b = true) : bytesLt b a = false := by
  induction a generalizing b with
  | nil =>
    cases b with
    | nil => simp [bytesLt] at h
    | cons y ys => simp [bytesLt]
  | cons x xs ih =>
    cases b with
    | nil => simp [bytesLt] at h
    | cons y ys =>
      rw [bytesLt] at h ⊢
      by_cases hxy : x < y
      · rw [if_neg (by omega : ¬y < x), if_pos hxy]
      · rw [if_neg hxy] at h
        by_cases hyx : y < x
        · rw [if_pos hyx] at h
          exact absurd h (by simp)
        · rw [if_neg hyx] at h
          have hxyeq : x = y := by omega
          subst hxyeq
          rw [if_neg hxy, if_neg hxy]
          exact ih ys h

/-- C8: for every pair of operands reaching `compare` (WHERE) and
`compareValues` (ORDER BY, MIN/MAX via `compare`, join conditions —
the two functions are textually identical): when both operands are
numeric-ish (int, int32, int64 or float64) the result orders their
`int64` conversions numerically (with floats truncated toward zero,
exactly, on finite in-range floats); otherwise it orders the canonical
`%v` string forms bytewise-lexicographically, returning negative, zero
or positive accordingly. -/

theorem C8_compare_semantics (fmtF64 : Nat → List Nat) (a b : Value) :
    (∀ x y, toComparableInt a = some x → toComparableInt b = some y →
      ((compareVal fmtF64 a b < 0 ↔ x < y) ∧
       (compareVal fmtF64 a b = 0 ↔ x = y) ∧
       (0 < compareVal fmtF64 a b ↔ y < x))) ∧
    ((toComparableInt a = none ∨ toComparableInt b = none) →
      ((compareVal fmtF64 a b < 0 ↔
          List.Lex (· < ·) (goString fmtF64 a) (goString fmtF64 b)) ∧
       (compareVal fmtF64 a b = 0 ↔ goString fmtF64 a = goString fmtF64 b) ∧
       (0 < compareVal fmtF64 a b ↔
          List.Lex (· < ·) (goString fmtF64 b) (goString fmtF64 a)))) ∧
    ((toComparableInt a).isSome ↔ specNumericish a) ∧
    (∀ bits, a = Value.vfloat bits → f64Finite bits →
      -(2 ^ 63 : ℚ) < f64ToQ bits → f64ToQ bits < 2 ^ 63 →
      toComparableInt a = some (ratTrunc (f64ToQ bits))) := by
  refine ⟨?_, ?_, ?_, ?_⟩
  · intro x y hx hy
    simp only [compareVal, hx, hy]
    split_ifs with h1 h2
    · exact ⟨iff_of_true (by norm_num) h1, iff_of_false (by norm_num) (by omega),
        iff_of_false (by norm_num) (by omega)⟩
    · exact ⟨iff_of_false (by norm_num) h1, iff_of_false (by norm_num) (by omega),
        iff_of_true (by norm_num) h2⟩
    · exact ⟨iff_of_false (by norm_num) h1, iff_of_true rfl (by omega),
        iff_of_false (by norm_num) h2⟩
  · intro h
    have hred : compareVal fmtF64 a b =
        (if bytesLt (goString fmtF64 a) (goString fmtF64 b) then -1
         else if bytesLt (goString fmtF64 b) (goString fmtF64 a) then 1 else 0) := by
      rcases h with h | h <;>
        (rw [compareVal, h] <;> cases htc : toComparableInt a <;>
          cases htc2 : toComparableInt b <;> rfl)
    rw [hred]
    split_ifs with h1 h2
    · refine ⟨iff_of_true (by norm_num) ((bytesLt_iff_lex _ _).mp h1),
        iff_of_false (by norm_num) ?_, iff_of_false (by norm_num) ?_⟩
      · intro heq
        rw [heq, bytesLt_irrefl] at h1
        exact absurd h1 (by simp)
      · intro hlex
        have h3 := (bytesLt_iff_lex _ _).mpr hlex
        rw [bytesLt_asymm _ _ h1] at h3
        exact absurd h3 (by simp)
    · refine ⟨iff_of_false (by norm_num) ?_, iff_of_false (by norm_num) ?_,
        iff_of_true (by norm_num) ((bytesLt_iff_lex _ _).mp h2)⟩
      · intro hlex
        rw [(bytesLt_iff_lex _ _).mpr hlex] at h1
        exact h1 rfl
      · intro heq
        rw [heq, bytesLt_irrefl] at h2
        exact absurd h2 (by simp)
    · have heq := bytesLt_both_false _ _
        (Bool.not_eq_true _ ▸ eq_false_of_ne_true h1) (eq_false_of_ne_true h2)
      refine ⟨iff_of_false (by norm_num) ?_, iff_of_true rfl heq,
        iff_of_false (by norm_num) ?_⟩
      · intro hlex
        exact h1 ((bytesLt_iff_lex _ _).mpr hlex)
      · intro hlex
        exact h2 ((bytesLt_iff_lex _ _).mpr hlex)
  · cases a <;> simp [toComparableInt, specNumericish]
  · intro bits ha hfin hlo hhi
    subst ha
    simp only [toComparableInt]
    rw [f64TruncBits_eq_ratTrunc bits hfin hlo hhi]

/-- Applies C8 on the numeric pair (2, 5) and on the byte-string pair
(`b`, `a`), matching each branch of the comparison semantics. -/

theorem C8_compare_semantics_witness :
    compareVal (fun _ => []) (.vint 2) (.vint 5) < 0 ∧
    0 < compareVal (fun _ => []) (.vstr [98]) (.vstr [97]) := by
  constructor
  · exact ((C8_compare_semantics (fun _ => []) (.vint 2) (.vint 5)).1 2 5
      rfl rfl).1.mpr (by norm_num)
  · exact ((C8_compare_semantics (fun _ => []) (.vstr [98]) (.vstr [97])).2.1
      (Or.inl rfl)).2.2.mpr (by decide)

/-! ## Slotted page (internal/storage/slotted_page.go)

All header fields are machine integers (`uint64` page id, `uint16`
counters); arithmetic on them is reduced modulo 2^16 exactly where the
Go code computes in `uint16`.  The 16384-byte array is a `List Nat` of
that length. -/

lemma qmul_eq (a b : ℚ) : qmul a b = a * b := (Rat.mul_def a b).symm

lemma qadd_eq (a b : ℚ) : qadd a b = a + b := (Rat.add_def' a b).symm

lemma qsum_eq (l : List ℚ) : qsum l = l.sum := by
  induction l with
  | nil => rfl
  | cons x t ih => rw [qsum, List.foldr_cons, show t.foldr qadd 0 = qsum t from rfl,
      ih, qadd_eq, List.sum_cons]

lemma qsub_eq (a b : ℚ) : qsub a b = a - b := (Rat.sub_def' a b).symm

lemma qdiv_eq (a b : ℚ) : qdiv a b = a / b := (Rat.div_def' a b).symm

/-- C9: for same-dimension vectors with at least one of zero norm
(all components zero), CosineSimilarity returns exactly 0 and
CosineDistance exactly 1; for vectors of unequal dimension both
return an error. -/

theorem C9_cosine_zero_norm (a b : Vec) :
    (a.dims = b.dims →
      ((∀ i < a.dims, a.values.getD i 0 = 0) ∨ (∀ i < b.dims, b.values.getD i 0 = 0)) →
      cosineSimilarity a b = .ok 0 ∧ cosineDistance a b = .ok 1) ∧
    (a.dims ≠ b.dims →
      cosineSimilarity a b = .error .dimensionMismatch ∧
      cosineDistance a b = .error .dimensionMismatch) := by
  constructor
  · intro hdim hz
    have hguard : Rat.sqrt (qsum ((List.range a.dims).map
        (fun i => qmul (a.values.getD i 0) (a.values.getD i 0)))) = 0 ∨
        Rat.sqrt (qsum ((List.range a.dims).map
        (fun i => qmul (b.values.getD i 0) (b.values.getD i 0)))) = 0 := by
      rcases hz with hz | hz
      · left
        have hsum : qsum ((List.range a.dims).map
            (fun i => qmul (a.values.getD i 0) (a.values.getD i 0))) = 0 := by
          rw [qsum_eq]
          apply List.sum_eq_zero
          intro x hx
          rcases List.mem_map.mp hx with ⟨i, hi, rfl⟩
          rw [hz i (List.mem_range.mp hi), qmul_eq, mul_zero]
        rw [hsum]
        decide
      · right
        have hsum : qsum ((List.range a.dims).map
            (fun i => qmul (b.values.getD i 0) (b.values.getD i 0))) = 0 := by
          rw [qsum_eq]
          apply List.sum_eq_zero
          intro x hx
          rcases List.mem_map.mp hx with ⟨i, hi, rfl⟩
          rw [hz i (hdim ▸ List.mem_range.mp hi), qmul_eq, mul_zero]
        rw [hsum]
        decide
    have hsim : cosineSimilarity a b = .ok 0 := by
      unfold cosineSimilarity
      rw [if_neg (show ¬a.dims ≠ b.dims from fun h => h hdim)]
      simp only []
      rw [if_pos hguard]
    refine ⟨hsim, ?_⟩
    unfold cosineDistance
    rw [hsim]
    show Except.ok (qsub 1 0) = Except.ok 1
    rw [show qsub 1 0 = 1 from by rw [qsub_eq]; norm_num]
  · intro hne
    have hsim : cosineSimilarity a b = .error .dimensionMismatch := by
      unfold cosineSimilarity
      rw [if_pos hne]
    refine ⟨hsim, ?_⟩
    unfold cosineDistance
    rw [hsim]

/-- C9 at a concrete input: the zero vector against (3, 4) in two
dimensions. -/

theorem C9_cosine_zero_norm_witness :
    (⟨2, [0, 0]⟩ : Vec).dims = (⟨2, [3, 4]⟩ : Vec).dims ∧
    cosineSimilarity ⟨2, [0, 0]⟩ ⟨2, [3, 4]⟩ = .ok 0 ∧
    cosineDistance ⟨2, [0, 0]⟩ ⟨2, [3, 4]⟩ = .ok 1 :=
  ⟨rfl, (C9_cosine_zero_norm ⟨2, [0, 0]⟩ ⟨2, [3, 4]⟩).1 rfl
    (Or.inl (by intro i hi; interval_cases i <;> rfl))⟩

/-! ## Claim C3: AND/OR chains in executed WHERE clauses -/

/-- C3: the executor drops AND/OR chains.  convertWhereClause copies
only the leaf of every parser WHERE tree, so the executed scenario
query with the AND chain returns the a=2 and a=3 rows (two rows, not
only a=3: the a != 2 conjunct is ignored), and the OR chain returns
only the a=1 row (one row, not the a=1 and a=3 rows: the b = 30
disjunct is ignored). -/

theorem C3_where_chain_dropped :
    (∀ c op v andC orC,
      convertWhereClause (some (.node c op v andC orC)) = some ⟨c, op, v⟩) ∧
    executeSelect (fun _ => []) [("t", c3Table)] (c3Stmt c3AndWhere) =
      .ok ([[("a", .vint 2), ("b", .vint 20)], [("a", .vint 3), ("b", .vint 30)]], ["a"]) ∧
    executeSelect (fun _ => []) [("t", c3Table)] (c3Stmt c3OrWhere) =
      .ok ([[("a", .vint 1), ("b", .vint 10)]], ["a"]) ∧
    (executeSelect (fun _ => []) [("t", c3Table)] (c3Stmt c3AndWhere)).map
      (fun p => p.1.length) = .ok 2 ∧
    (executeSelect (fun _ => []) [("t", c3Table)] (c3Stmt c3OrWhere)).map
      (fun p => p.1.length) = .ok 1 :=
  ⟨fun _ _ _ _ _ => rfl, by decide, by decide, by decide, by decide⟩

/-! ## Claim C10: CREATE INDEX hard-codes the cosine metric -/

lemma metric_foldl {α : Type} (g : HNSWIndex → α → HNSWIndex)
    (hg : ∀ idx x, (g idx x).metric = idx.metric) :
    ∀ (l : List α) (idx : HNSWIndex), (l.foldl g idx).metric = idx.metric := by
  intro l
  induction l with
  | nil => intro idx; rfl
  | cons h t ih => intro idx; rw [List.foldl_cons, ih, hg]

lemma connectNeighbors_metric (idx : HNSWIndex) (id : Nat)
    (candidates : List (Nat × ℚ)) (layer : Nat) :
    (connectNeighbors idx id candidates layer).metric = idx.metric := by
  suffices h : ∀ (sel : List (Nat × ℚ)) (mm : Nat) (idx : HNSWIndex),
      (sel.foldl (fun idx nb =>
        let g1 := layerSet idx.graph layer id ((layerGet idx.graph layer id).getD [] ++ [nb.1])
        let g2 := layerSet g1 layer nb.1 ((layerGet g1 layer nb.1).getD [] ++ [id])
        let lst := (layerGet g2 layer nb.1).getD []
        let g3 := if mm < lst.length then layerSet g2 layer nb.1 (lst.take mm) else g2
        { idx with graph := g3 }) idx).metric = idx.metric by
    exact h _ _ idx
  intro sel
  induction sel with
  | nil => intro mm idx; rfl
  | cons hd tl ih => intro mm idx; rw [List.foldl_cons, ih]

lemma addConnect_metric : ∀ (l : Nat) (idx : HNSWIndex) (ep : Nat) (vec : Vec)
    (id : Nat), (addConnect vec id idx ep l).metric = idx.metric := by
  intro l
  induction l with
  | zero => intro idx ep vec id; exact connectNeighbors_metric idx id _ 0
  | succ l' ih =>
    intro idx ep vec id
    rw [show addConnect vec id idx ep (l' + 1) =
        addConnect vec id
          (connectNeighbors idx id
            (searchLayer idx vec ep idx.efConstruction (l' + 1)) (l' + 1))
          (if (searchLayer idx vec ep idx.efConstruction (l' + 1)).isEmpty then ep
           else ((searchLayer idx vec ep idx.efConstruction (l' + 1)).headD (0, 0)).1)
          l' from rfl]
    rw [ih, connectNeighbors_metric]

lemma addWithLayer_metric (idx : HNSWIndex) (vec : Vec) (rowId layer : Nat) :
    (addWithLayer idx vec rowId layer).metric = idx.metric := by
  unfold addWithLayer
  split
  · rfl
  · rw [addConnect_metric]

lemma buildHNSWAux_metric (colName : String) :
    ∀ (rows : List (Nat × Row)) (idx : HNSWIndex) (draws : List Nat),
      (buildHNSWAux colName idx draws rows).metric = idx.metric := by
  intro rows
  induction rows with
  | nil => intro idx draws; rfl
  | cons hd tl ih =>
    obtain ⟨i, row⟩ := hd
    intro idx draws
    cases h : rowGet row colName with
    | none => rw [buildHNSWAux, h]; exact ih idx draws
    | some v =>
      cases v with
      | vvec dims vals =>
        rw [buildHNSWAux, h]
        rw [show (match some (Value.vvec dims vals) with
            | some (.vvec dims vals) =>
              buildHNSWAux colName
                (addWithLayer idx ⟨dims, vals.map f32ToQ⟩ i (draws.headD 0))
                draws.tail tl
            | _ => buildHNSWAux colName idx draws tl : HNSWIndex) =
          buildHNSWAux colName
            (addWithLayer idx ⟨dims, vals.map f32ToQ⟩ i (draws.headD 0))
            draws.tail tl from rfl]
        rw [ih, addWithLayer_metric]
      | vnull => rw [buildHNSWAux, h]; exact ih idx draws
      | vint j => rw [buildHNSWAux, h]; exact ih idx draws
      | vint32 j => rw [buildHNSWAux, h]; exact ih idx draws
      | vint64 j => rw [buildHNSWAux, h]; exact ih idx draws
      | vbool bb => rw [buildHNSWAux, h]; exact ih idx draws
      | vstr str => rw [buildHNSWAux, h]; exact ih idx draws
      | vfloat bits => rw [buildHNSWAux, h]; exact ih idx draws

/-- C10: every index built by the CREATE INDEX path carries the cosine
metric, whatever the per-index options and layer draws; and with an
index on the queried column, the executed vector search returns the
same answer whether the query names L2_DISTANCE or COSINE_DISTANCE —
the index answers with its own stored metric. -/

theorem C10_index_metric_hardcoded_cosine :
    (∀ tableRows colName options draws,
      (executeCreateIndexHNSW tableRows colName options draws).metric =
        VectorDistance.cosine) ∧
    (∀ (col : String) (qv : List ℚ) (d1 d2 : Bool) (stmtLimit : Nat)
      (rows : List Row) (indexes : List (String × HNSWIndex)),
      (indexes.find? (fun kv => kv.1 = col)).isSome →
      executeVectorSearchCore ⟨"L2_DISTANCE", col, qv, d1⟩ stmtLimit rows indexes =
        executeVectorSearchCore ⟨"COSINE_DISTANCE", col, qv, d2⟩ stmtLimit rows indexes) := by
  constructor
  · intro tableRows colName options draws
    unfold executeCreateIndexHNSW
    rw [buildHNSWAux_metric]
    rfl
  · intro col qv d1 d2 stmtLimit rows indexes hsome
    cases hfind : indexes.find? (fun kv => kv.1 = col) with
    | none => rw [hfind] at hsome; exact absurd hsome (by simp)
    | some p =>
      obtain ⟨nm, index⟩ := p
      simp only [executeVectorSearchCore, hfind]
      rfl

/-- C10 at a concrete input: a one-entry index list on column v. -/

theorem C10_index_metric_hardcoded_cosine_witness :
    executeVectorSearchCore ⟨"L2_DISTANCE", "v", [1], false⟩ 1 []
        [("v", newHNSWIndex 8 50 .cosine)] =
      executeVectorSearchCore ⟨"COSINE_DISTANCE", "v", [1], false⟩ 1 []
        [("v", newHNSWIndex 8 50 .cosine)] :=
  C10_index_metric_hardcoded_cosine.2 "v" [1] false false 1 []
    [("v", newHNSWIndex 8 50 .cosine)] (by decide)

/-! ## Claim C7: Search result order, size bound and the ef default -/

/-- C7 counterexample: searching that index for the query (1, 0) with
k = 2 returns the entry point first — cosine distance 1 — and the
exact match — distance 0 — second: results come in layer-search pop
order, which starts at the entry point, not sorted by ascending
distance. -/

theorem C7_search_unsorted_counterexample :
    hnswSearch c7Index ⟨2, [1, 0]⟩ 2 50 = [(10, 1), (11, 0)] ∧
    ¬ List.Sorted (fun x y : Nat × ℚ => x.2 ≤ y.2)
      (hnswSearch c7Index ⟨2, [1, 0]⟩ 2 50) := by
  constructor
  · decide
  · decide

lemma ef_formula (lim : Nat) :
    (if lim * 2 < 50 then 50 else lim * 2) = max 50 (2 * lim) := by
  rcases Nat.lt_or_ge (lim * 2) 50 with h | h
  · rw [if_pos h]; omega
  · rw [if_neg (by omega)]; omega

/-- C7 amended: Search returns at most k results (in layer-search pop
order, not sorted — see the counterexample), and the executed vector
search on an indexed column calls it with width ef = max(50, 2·limit),
the limit defaulting to the row count when the statement gives none. -/

theorem C7_search_at_most_k_and_ef :
    (∀ (idx : HNSWIndex) (query : Vec) (k ef : Nat),
      (hnswSearch idx query k ef).length ≤ k) ∧
    (∀ (vob : VectorOrderBy) (stmtLimit : Nat) (rows : List Row)
      (indexes : List (String × HNSWIndex)) (nm : String) (index : HNSWIndex),
      indexes.find? (fun kv => kv.1 = vob.column) = some (nm, index) →
      (vob.function = "COSINE_DISTANCE" ∨ vob.function = "L2_DISTANCE") →
      executeVectorSearchCore vob stmtLimit rows indexes =
        .ok ((hnswSearch index ⟨vob.queryVector.length, vob.queryVector⟩
            (if 0 < stmtLimit then stmtLimit else rows.length)
            (max 50 (2 * (if 0 < stmtLimit then stmtLimit else rows.length)))).map
          (fun rc =>
            if rc.1 < rows.length then (rows.getD rc.1 [], rc.2)
            else ([("_row_id", Value.vint (rc.1 : Int))], rc.2)))) := by
  constructor
  · intro idx query k ef
    unfold hnswSearch
    split
    · exact Nat.zero_le k
    · exact le_trans (List.length_filterMap_le _ _) (List.length_take_le _ _)
  · intro vob stmtLimit rows indexes nm index hfind hfn
    obtain ⟨f, c, q, d⟩ := vob
    rw [← ef_formula]
    rcases hfn with hfn | hfn
    · replace hfn : f = "COSINE_DISTANCE" := hfn
      subst hfn
      simp only [executeVectorSearchCore, hfind]
      rfl
    · replace hfn : f = "L2_DISTANCE" := hfn
      subst hfn
      simp only [executeVectorSearchCore, hfind]
      rfl

/-- C7 amended at a concrete input: the two-vector index, k = 2. -/

theorem C7_search_at_most_k_and_ef_witness :
    (hnswSearch c7Index ⟨2, [1, 0]⟩ 2 50).length ≤ 2 ∧
    executeVectorSearchCore ⟨"COSINE_DISTANCE", "v", [1, 0], false⟩ 2 []
        [("v", c7Index)] =
      .ok ((hnswSearch c7Index ⟨2, [1, 0]⟩ 2 (max 50 (2 * 2))).map
        (fun rc =>
          if rc.1 < ([] : List Row).length then (([] : List Row).getD rc.1 [], rc.2)
          else ([("_row_id", Value.vint (rc.1 : Int))], rc.2))) :=
  ⟨C7_search_at_most_k_and_ef.1 c7Index ⟨2, [1, 0]⟩ 2 50,
   C7_search_at_most_k_and_ef.2 ⟨"COSINE_DISTANCE", "v", [1, 0], false⟩ 2 []
     [("v", c7Index)] "v" c7Index rfl (Or.inl rfl)⟩

/-! ## Claim C4: INNER JOIN semantics and the scenario query -/

lemma foldl_filter_map {α β : Type} (p : α → Bool) (g : α → β) :
    ∀ (R : List α) (acc : List β),
      R.foldl (fun res r => if p r then res ++ [g r] else res) acc =
        acc ++ (R.filter p).map g := by
  intro R
  induction R with
  | nil => intro acc; simp
  | cons hd tl ih =>
    intro acc
    rw [List.foldl_cons]
    by_cases h : p hd
    · rw [if_pos h, ih, List.filter_cons_of_pos h, List.map_cons, List.append_assoc,
        List.singleton_append]
    · rw [if_neg h, ih, List.filter_cons_of_neg h]

lemma innerJoin_foldl (fmtF64 : Nat → List Nat) (lt rt : String) (R : List Row)
    (cond : Option JoinCondition) :
    ∀ (L : List Row) (acc : List Row),
      L.foldl (fun result l => R.foldl (fun result r =>
        if evaluateJoinCondition fmtF64 l r cond then
          result ++ [mergeJoinRow lt l rt r]
        else result) result) acc =
      acc ++ L.flatMap (fun l =>
        (R.filter (fun r => evaluateJoinCondition fmtF64 l r cond)).map
          (fun r => mergeJoinRow lt l rt r)) := by
  intro L
  induction L with
  | nil => intro acc; simp
  | cons hd tl ih =>
    intro acc
    rw [List.foldl_cons, foldl_filter_map, ih, List.flatMap_cons, List.append_assoc]

/-- C4: the INNER JOIN emits exactly one merged row (keys prefixed
table.column) per condition-satisfying pair, left-major; and the
executed scenario query over departments/employees returns its 3 rows
in insertion order of employees. -/

theorem C4_inner_join_semantics :
    (∀ (fmtF64 : Nat → List Nat) (lt : String) (L : List Row) (rt : String)
      (R : List Row) (cond : Option JoinCondition),
      executeInnerJoin fmtF64 lt L rt R cond =
        L.flatMap (fun l =>
          (R.filter (fun r => evaluateJoinCondition fmtF64 l r cond)).map
            (fun r => mergeJoinRow lt l rt r))) ∧
    executeSelect (fun _ => [])
        [("employees", c4Employees), ("departments", c4Departments)]
        { columns := ["employees.name", "departments.name"],
          tableName := "employees", whereClause := none,
          joins := [⟨"INNER", "departments", some ⟨"dept_id", "id", "="⟩⟩],
          orderBy := [], limit := 0, offset := 0 } =
      .ok ([[("employees.name", .vstr [65]), ("departments.name", .vstr [69, 110, 103])],
            [("employees.name", .vstr [66]),
             ("departments.name", .vstr [83, 97, 108, 101, 115])],
            [("employees.name", .vstr [67]), ("departments.name", .vstr [69, 110, 103])]],
           ["employees.name", "departments.name"]) := by
  constructor
  · intro fmtF64 lt L rt R cond
    unfold executeInnerJoin
    rw [innerJoin_foldl, List.nil_append]
  · decide

/-! ## Claim C5: Insert validation failures and what they leave behind -/

lemma tableInsert_pair_frame (F : Nat → List Nat) (t : Table) (row : Row)
    (t' : Table) (e : GoError) :
    tableInsert F t row = (t', some e) →
    t'.rows = t.rows ∧
    (t'.pages = t.pages ∨ t'.pages = t.pages ++ [newSlottedPage t.pages.length]) ∧
    t'.columns = t.columns ∧ t'.name = t.name := by
  unfold tableInsert
  split
  · intro h
    rw [Prod.mk.injEq] at h
    obtain ⟨h1, -⟩ := h
    subst h1
    exact ⟨rfl, Or.inl rfl, rfl, rfl⟩
  · split
    · intro h
      rw [Prod.mk.injEq] at h
      obtain ⟨h1, -⟩ := h
      subst h1
      exact ⟨rfl, Or.inl rfl, rfl, rfl⟩
    · split
      · split
        · intro h
          rw [Prod.mk.injEq] at h
          obtain ⟨-, h2⟩ := h
          exact absurd h2 (by simp)
        · intro h
          rw [Prod.mk.injEq] at h
          obtain ⟨h1, -⟩ := h
          subst h1
          exact ⟨rfl, Or.inl rfl, rfl, rfl⟩
      · dsimp only
        split
        · intro h
          rw [Prod.mk.injEq] at h
          obtain ⟨-, h2⟩ := h
          exact absurd h2 (by simp)
        · intro h
          rw [Prod.mk.injEq] at h
          obtain ⟨h1, -⟩ := h
          subst h1
          exact ⟨rfl, Or.inr rfl, rfl, rfl⟩

lemma execInsertRow_pair_frame (F : Nat → List Nat) (sF : List Nat → Option Nat)
    (db : List (String × Table)) (t : Table) (cns : List String)
    (vs : List Value) (t' : Table) (e : GoError) :
    execInsertRow F sF db t cns vs = (t', some e) →
    t'.rows = t.rows ∧
    (t'.pages = t.pages ∨ t'.pages = t.pages ++ [newSlottedPage t.pages.length]) ∧
    t'.columns = t.columns ∧ t'.name = t.name := by
  unfold execInsertRow
  split
  · intro h
    rw [Prod.mk.injEq] at h
    obtain ⟨h1, -⟩ := h
    subst h1
    exact ⟨rfl, Or.inl rfl, rfl, rfl⟩
  · split
    · intro h
      rw [Prod.mk.injEq] at h
      obtain ⟨h1, -⟩ := h
      subst h1
      exact ⟨rfl, Or.inl rfl, rfl, rfl⟩
    · split
      · intro h
        rw [Prod.mk.injEq] at h
        obtain ⟨h1, -⟩ := h
        subst h1
        exact ⟨rfl, Or.inl rfl, rfl, rfl⟩
      · split
        · intro h
          rw [Prod.mk.injEq] at h
          obtain ⟨h1, -⟩ := h
          subst h1
          exact ⟨rfl, Or.inl rfl, rfl, rfl⟩
        · split
          · intro h
            rw [Prod.mk.injEq] at h
            obtain ⟨h1, -⟩ := h
            subst h1
            exact ⟨rfl, Or.inl rfl, rfl, rfl⟩
          · exact tableInsert_pair_frame F t _ t' e

lemma validateNotNull_some (cols : List Column) (row : Row) (c : Column)
    (hc : c ∈ cols) (hnn : c.nullable = false)
    (hmiss : rowGet row c.name = none ∨ rowGet row c.name = some .vnull) :
    validateNotNull cols row = some .cannotBeNull := by
  unfold validateNotNull
  split
  · rfl
  next hneg =>
    exfalso
    apply hneg
    refine List.any_eq_true.mpr ⟨c, hc, ?_⟩
    rcases hmiss with h | h <;> rw [hnn, h] <;> rfl

lemma buildRowAux_ok_all (sF : List Nat → Option Nat) (cols : List Column) :
    ∀ (pairs : List (String × Value)) (row0 row : Row),
      buildRowAux sF cols row0 pairs = .ok row →
      ∀ p ∈ pairs, ∃ v', insertConvertValue sF (findColumn cols p.1) p.2 = .ok v' := by
  intro pairs
  induction pairs with
  | nil => intro row0 row h p hp; cases hp
  | cons hd tl ih =>
    obtain ⟨cn, v⟩ := hd
    intro row0 row h p hp
    rw [buildRowAux] at h
    cases hic : insertConvertValue sF (findColumn cols cn) v with
    | error e => rw [hic] at h; exact Except.noConfusion h
    | ok v' =>
      rw [hic] at h
      rcases List.mem_cons.mp hp with rfl | hp
      · exact ⟨v', hic⟩
      · exact ih (rowSet row0 cn v') row h p hp

lemma insertConvertValue_varchar_too_long (sF : List Nat → Option Nat)
    (c : Column) (sv : List Nat) (ht : c.type = .tVarChar) (hl : 0 < c.length)
    (hover : c.length < sv.length) :
    insertConvertValue sF (some c) (.vstr sv) = .error .valueTooLong := by
  simp [insertConvertValue, ht, hl, hover]

lemma c5_bigtext_insert (s : List Nat) (hs : s.length = 16400) :
    (execInsertRow (fun _ => []) (fun _ => none) [] c5TextTable ["c"]
      [.vstr s]).2 = some .pageInsertFailed ∧
    (execInsertRow (fun _ => []) (fun _ => none) [] c5TextTable ["c"]
      [.vstr s]).1.rows = [] ∧
    (execInsertRow (fun _ => []) (fun _ => none) [] c5TextTable ["c"]
      [.vstr s]).1.pages.length = 1 ∧
    c5TextTable.pages.length = 0 := by
  have hlen : (u16le 1 ++ (u16le 0 ++ (u32le s.length ++ s) ++ [])).length = 16408 := by
    simp [u16le, u32le, hs]
  have hfe : (newSlottedPage 0).freeEnd = 16384 := rfl
  have hfs : (newSlottedPage 0).freeStart = 12 := rfl
  have hins : insertRow (newSlottedPage 0)
      (u16le 1 ++ (u16le 0 ++ (u32le s.length ++ s) ++ [])) =
      .error .notEnoughSpace := by
    simp only [insertRow]
    rw [hlen, hfe, hfs]
    norm_num
  have key : execInsertRow (fun _ => []) (fun _ => none) [] c5TextTable ["c"]
      [.vstr s] =
      (match insertRow (newSlottedPage 0)
          (u16le 1 ++ (u16le 0 ++ (u32le s.length ++ s) ++ [])) with
       | .ok (_, p') =>
         ({ c5TextTable with rows := [[("c", Value.vstr s)]], pages := [p'] }, none)
       | .error _ =>
         ({ c5TextTable with pages := [newSlottedPage 0] },
           some GoError.pageInsertFailed)) := rfl
  rw [key, hins]
  exact ⟨rfl, rfl, rfl, rfl⟩

/-- C5 counterexample: inserting a 16400-byte TEXT value into an empty
table fails (the 16408-byte encoded row fits no page), leaving the row
sequence as before — but the page list has grown by the freshly
allocated page, which Table.Insert appends before the page-level
insert is attempted.  The table is not exactly as before the call. -/

theorem C5_error_after_page_alloc_counterexample :
    (execInsertRow (fun _ => []) (fun _ => none) [] c5TextTable ["c"]
      [.vstr (List.replicate 16400 97)]).2 = some .pageInsertFailed ∧
    (execInsertRow (fun _ => []) (fun _ => none) [] c5TextTable ["c"]
      [.vstr (List.replicate 16400 97)]).1.rows = [] ∧
    (execInsertRow (fun _ => []) (fun _ => none) [] c5TextTable ["c"]
      [.vstr (List.replicate 16400 97)]).1.pages.length = 1 ∧
    c5TextTable.pages.length = 0 :=
  c5_bigtext_insert (List.replicate 16400 97) (by rw [List.length_replicate])

/-- C5 amended: an insert whose built row leaves a non-nullable column
absent or null fails with the table exactly unchanged; so does one
whose VARCHAR(n) string value exceeds n bytes (the spec's toolongname
scenario, last conjunct); and any failing insert leaves the row
sequence unchanged and the page list either unchanged or — when the
encoded row fit no existing page — grown by one freshly allocated
(still empty) page, the deviation the counterexample exhibits. -/

theorem C5_insert_error_effects :
    (∀ (F : Nat → List Nat) (sF : List Nat → Option Nat)
      (db : List (String × Table)) (t : Table) (cns : List String) (vs : List Value),
      (∀ row, buildRow sF t.columns (cns.zip vs) = .ok row →
        ∃ c ∈ t.columns, c.nullable = false ∧
          (rowGet row c.name = none ∨ rowGet row c.name = some .vnull)) →
      (execInsertRow F sF db t cns vs).2.isSome = true ∧
      (execInsertRow F sF db t cns vs).1 = t) ∧
    (∀ (F : Nat → List Nat) (sF : List Nat → Option Nat)
      (db : List (String × Table)) (t : Table) (cns : List String) (vs : List Value)
      (cn : String) (sv : List Nat) (c : Column),
      (cn, Value.vstr sv) ∈ cns.zip vs → findColumn t.columns cn = some c →
      c.type = .tVarChar → 0 < c.length → c.length < sv.length →
      (execInsertRow F sF db t cns vs).2.isSome = true ∧
      (execInsertRow F sF db t cns vs).1 = t) ∧
    (∀ (F : Nat → List Nat) (sF : List Nat → Option Nat)
      (db : List (String × Table)) (t : Table) (cns : List String) (vs : List Value),
      (execInsertRow F sF db t cns vs).2.isSome = true →
      (execInsertRow F sF db t cns vs).1.rows = t.rows ∧
      ((execInsertRow F sF db t cns vs).1.pages = t.pages ∨
        (execInsertRow F sF db t cns vs).1.pages =
          t.pages ++ [newSlottedPage t.pages.length])) ∧
    execInsertRow (fun _ => []) (fun _ => none) [] c5VarcharTable ["id", "name"]
        [.vint 3, .vstr [116, 111, 111, 108, 111, 110, 103, 110, 97, 109, 101]] =
      (c5VarcharTable, some .valueTooLong) := by
  refine ⟨?_, ?_, ?_, by decide⟩
  · intro F sF db t cns vs hyp
    unfold execInsertRow
    split
    · exact ⟨rfl, rfl⟩
    · cases hb : buildRow sF t.columns (cns.zip vs) with
      | error e => exact ⟨rfl, rfl⟩
      | ok row =>
        obtain ⟨c, hc, hnn, hmiss⟩ := hyp row hb
        simp only [validateNotNull_some t.columns row c hc hnn hmiss]
        exact ⟨rfl, trivial⟩
  · intro F sF db t cns vs cn sv c hmem hfind ht hl hover
    cases hb : buildRow sF t.columns (cns.zip vs) with
    | ok row =>
      exfalso
      obtain ⟨v', hic⟩ := buildRowAux_ok_all sF t.columns (cns.zip vs) [] row hb
        (cn, Value.vstr sv) hmem
      rw [hfind, insertConvertValue_varchar_too_long sF c sv ht hl hover] at hic
      cases hic
    | error e =>
      unfold execInsertRow
      split
      · exact ⟨rfl, rfl⟩
      · simp only [hb]
        exact ⟨rfl, trivial⟩
  · intro F sF db t cns vs h
    cases hres : execInsertRow F sF db t cns vs with
    | mk t' o =>
      rw [hres] at h
      cases o with
      | none => exact absurd h (by simp)
      | some e =>
        obtain ⟨h1, h2, -, -⟩ := execInsertRow_pair_frame F sF db t cns vs t' e hres
        exact ⟨h1, h2⟩

/-- C5 at a concrete input: the toolongname insert, through the
VARCHAR clause of the theorem. -/

theorem C5_insert_error_effects_witness :
    ("name", Value.vstr [116, 111, 111, 108, 111, 110, 103, 110, 97, 109, 101]) ∈
      (["id", "name"].zip
        [Value.vint 3,
         Value.vstr [116, 111, 111, 108, 111, 110, 103, 110, 97, 109, 101]]) ∧
    (execInsertRow (fun _ => []) (fun _ => none) [] c5VarcharTable ["id", "name"]
        [.vint 3, .vstr [116, 111, 111, 108, 111, 110, 103, 110, 97, 109, 101]]).2.isSome =
      true ∧
    (execInsertRow (fun _ => []) (fun _ => none) [] c5VarcharTable ["id", "name"]
        [.vint 3, .vstr [116, 111, 111, 108, 111, 110, 103, 110, 97, 109, 101]]).1 =
      c5VarcharTable := by
  refine ⟨by decide, ?_, ?_⟩ <;>
  · have h := C5_insert_error_effects.2.1 (fun _ => []) (fun _ => none) []
      c5VarcharTable ["id", "name"]
      [.vint 3, .vstr [116, 111, 111, 108, 111, 110, 103, 110, 97, 109, 101]]
      "name" [116, 111, 111, 108, 111, 110, 103, 110, 97, 109, 101]
      ⟨"name", .tVarChar, 10, false, false, none⟩
      (by decide) (by decide) rfl (by decide) (by decide)
    first
      | exact h.1
      | exact h.2

/-! ## Claim C2: the primary-key invariant -/

lemma compareVal_self (F : Nat → List Nat) (v : Value) : compareVal F v v = 0 := by
  cases h : toComparableInt v <;> simp [compareVal, h, bytesLt_irrefl]

lemma ite_cmp_zero_symm (p q : Prop) [Decidable p] [Decidable q]
    (h : (if p then (-1 : Int) else if q then 1 else 0) = 0) :
    (if q then (-1 : Int) else if p then 1 else 0) = 0 := by
  by_cases hp : p
  · rw [if_pos hp] at h; norm_num at h
  · rw [if_neg hp] at h
    by_cases hq : q
    · rw [if_pos hq] at h; norm_num at h
    · rw [if_neg hq, if_neg hp]

lemma compareVal_zero_symm (F : Nat → List Nat) (a b : Value)
    (h : compareVal F a b = 0) : compareVal F b a = 0 := by
  rcases ha : toComparableInt a with _ | x <;>
    rcases hb : toComparableInt b with _ | y <;>
    rw [compareVal, ha, hb] at h <;> rw [compareVal, hb, ha] <;>
    exact ite_cmp_zero_symm _ _ h

lemma rowGetD_ne_vnull (r : Row) (k : String) (h : rowGetD r k ≠ Value.vnull) :
    rowGet r k ≠ none ∧ rowGet r k ≠ some Value.vnull := by
  unfold rowGetD at h
  cases hg : rowGet r k with
  | none => rw [hg] at h; exact absurd rfl h
  | some v =>
    rw [hg, Option.getD_some] at h
    refine ⟨by simp, ?_⟩
    intro hv
    exact h (Option.some.inj hv)

lemma validatePKCol_none (F : Nat → List Nat) (rows : List Row) (row : Row)
    (c : Column) (hp : c.isPrimary = true)
    (h : validatePKCol F rows row c = none) :
    rowGetD row c.name ≠ Value.vnull ∧
    ∀ er ∈ rows, compareVal F (rowGetD row c.name) (rowGetD er c.name) ≠ 0 := by
  unfold validatePKCol at h
  rw [if_pos hp] at h
  dsimp only at h
  split at h
  · exact absurd h (by simp)
  · split at h
    · exact absurd h (by simp)
    · rename_i h1 h2
      refine ⟨h1, ?_⟩
      intro er her h0
      exact h2 (List.any_eq_true.mpr ⟨er, her, decide_eq_true h0⟩)

lemma tableInsert_rows_shape (F : Nat → List Nat) (t : Table) (row : Row) :
    (tableInsert F t row).1.columns = t.columns ∧
    ((tableInsert F t row).1.rows = t.rows ∨
      (tableInsert F t row).1.rows = t.rows ++ [row]) := by
  unfold tableInsert
  split
  · exact ⟨rfl, Or.inl rfl⟩
  · split
    · exact ⟨rfl, Or.inl rfl⟩
    · split
      · split
        · exact ⟨rfl, Or.inr rfl⟩
        · exact ⟨rfl, Or.inl rfl⟩
      · dsimp only
        split
        · exact ⟨rfl, Or.inr rfl⟩
        · exact ⟨rfl, Or.inl rfl⟩

lemma execInsertRow_rows_shape (F : Nat → List Nat) (sF : List Nat → Option Nat)
    (db : List (String × Table)) (t : Table) (cns : List String) (vs : List Value) :
    (execInsertRow F sF db t cns vs).1.columns = t.columns ∧
    ((execInsertRow F sF db t cns vs).1.rows = t.rows ∨
      (∃ row, (execInsertRow F sF db t cns vs).1.rows = t.rows ++ [row] ∧
        validatePK F t.columns t.rows row = none)) := by
  unfold execInsertRow
  split
  · exact ⟨rfl, Or.inl rfl⟩
  · split
    · exact ⟨rfl, Or.inl rfl⟩
    · rename_i row hbr
      split
      · exact ⟨rfl, Or.inl rfl⟩
      · rename_i hnn
        split
        · exact ⟨rfl, Or.inl rfl⟩
        · rename_i hpk
          split
          · exact ⟨rfl, Or.inl rfl⟩
          · rename_i hfk
            obtain ⟨hcols, hrows⟩ := tableInsert_rows_shape F t row
            exact ⟨hcols,
              hrows.elim Or.inl (fun hr => Or.inr ⟨row, hr, hpk⟩)⟩

lemma pkOK_insert (F : Nat → List Nat) (sF : List Nat → Option Nat)
    (db : List (String × Table)) (t : Table) (cns : List String) (vs : List Value)
    (h : pkOK F t) : pkOK F (execInsertRow F sF db t cns vs).1 := by
  obtain ⟨hcols, hrows⟩ := execInsertRow_rows_shape F sF db t cns vs
  intro c hc hp
  rw [hcols] at hc
  rcases hrows with hr | ⟨row, hr, hpk⟩
  · rw [hr]
    exact h c hc hp
  · rw [hr]
    have hcol : validatePKCol F t.rows row c = none :=
      List.findSome?_eq_none_iff.mp hpk c hc
    obtain ⟨hnv, hall⟩ := validatePKCol_none F t.rows row c hp hcol
    obtain ⟨hnull, hpw⟩ := h c hc hp
    constructor
    · intro r hrm
      rcases List.mem_append.mp hrm with hrm | hrm
      · exact hnull r hrm
      · rw [List.mem_singleton.mp hrm]
        exact rowGetD_ne_vnull row c.name hnv
    · rw [List.pairwise_append]
      refine ⟨hpw, List.pairwise_singleton _ _, ?_⟩
      intro r1 hr1 r2 hr2
      rw [List.mem_singleton.mp hr2]
      intro h0
      exact hall r1 hr1 (compareVal_zero_symm F _ _ h0)

lemma pkOK_delete (F : Nat → List Nat) (t : Table) (w : Option WhereClause)
    (h : pkOK F t) : pkOK F (tableDelete F t w).1 := by
  intro c hc hp
  cases w with
  | none =>
    exact ⟨fun r hr => absurd hr (List.not_mem_nil r), List.Pairwise.nil⟩
  | some wc =>
    obtain ⟨hnull, hpw⟩ := h c hc hp
    constructor
    · intro r hr
      exact hnull r (List.mem_of_mem_filter hr)
    · exact hpw.sublist (List.filter_sublist _)

lemma pkOK_applyOps (F : Nat → List Nat) (sF : List Nat → Option Nat)
    (db : List (String × Table)) :
    ∀ (ops : List TableOp) (t : Table), pkOK F t →
      pkOK F (applyOps F sF db t ops) := by
  intro ops
  induction ops with
  | nil => intro t h; exact h
  | cons op rest ih =>
    intro t h
    refine ih (applyOp F sF db t op) ?_
    cases op with
    | ins cns vs => exact pkOK_insert F sF db t cns vs h
    | del w => exact pkOK_delete F t w h

/-- C2: starting from a created table, after any sequence of executed
inserts and deletes every primary-key column is present and non-nil in
every row and no two rows share its value; and an insert whose built
row duplicates an existing row's primary-key value (compares equal)
fails and leaves the table exactly unchanged. -/

theorem C2_primary_key_invariant :
    (∀ (F : Nat → List Nat) (sF : List Nat → Option Nat)
      (db : List (String × Table)) (name : String) (cols : List Column)
      (ops : List TableOp) (c : Column),
      c ∈ (applyOps F sF db (newTable name cols) ops).columns →
      c.isPrimary = true →
      (∀ r ∈ (applyOps F sF db (newTable name cols) ops).rows,
        rowGet r c.name ≠ none ∧ rowGet r c.name ≠ some Value.vnull) ∧
      (applyOps F sF db (newTable name cols) ops).rows.Pairwise
        (fun r1 r2 => rowGetD r1 c.name ≠ rowGetD r2 c.name)) ∧
    (∀ (F : Nat → List Nat) (sF : List Nat → Option Nat)
      (db : List (String × Table)) (t : Table) (cns : List String) (vs : List Value),
      (∀ row, buildRow sF t.columns (cns.zip vs) = .ok row →
        ∃ c ∈ t.columns, c.isPrimary = true ∧
          ∃ er ∈ t.rows,
            compareVal F (rowGetD row c.name) (rowGetD er c.name) = 0) →
      (execInsertRow F sF db t cns vs).2.isSome = true ∧
      (execInsertRow F sF db t cns vs).1 = t) := by
  constructor
  · intro F sF db name cols ops c hc hp
    have h := pkOK_applyOps F sF db ops (newTable name cols)
      (fun c _ _ => ⟨fun r hr => absurd hr (List.not_mem_nil r), List.Pairwise.nil⟩)
    obtain ⟨h1, h2⟩ := h c hc hp
    refine ⟨h1, h2.imp ?_⟩
    intro r1 r2 hne heq
    exact hne (heq ▸ compareVal_self F _)
  · intro F sF db t cns vs hyp
    unfold execInsertRow
    split
    · exact ⟨rfl, rfl⟩
    · cases hb : buildRow sF t.columns (cns.zip vs) with
      | error e => exact ⟨rfl, rfl⟩
      | ok row =>
        obtain ⟨c, hc, hp, er, her, hcmp⟩ := hyp row hb
        cases hnn : validateNotNull t.columns row with
        | some e =>
          simp only [hnn]
          exact ⟨rfl, trivial⟩
        | none =>
          have hcol : validatePKCol F t.rows row c ≠ none := by
            unfold validatePKCol
            rw [if_pos hp]
            dsimp only
            split
            · simp
            · rw [if_pos (List.any_eq_true.mpr ⟨er, her, decide_eq_true hcmp⟩)]
              simp
          cases hfs : validatePK F t.columns t.rows row with
          | none =>
            exact absurd (List.findSome?_eq_none_iff.mp hfs c hc) hcol
          | some e =>
            simp only [hnn, hfs]
            exact ⟨rfl, trivial⟩

/-! ## Claim C6: slotted-page insertion, byte-level lemmas -/

lemma writeBytes_length (d : List Nat) (pos : Nat) (b : List Nat)
    (hd : pos ≤ d.length) : (writeBytes d pos b).length = d.length := by
  simp [writeBytes]
  omega

lemma getElem?_writeBytes (d : List Nat) (pos : Nat) (b : List Nat) (i : Nat)
    (hd : pos ≤ d.length) :
    (writeBytes d pos b)[i]? =
      if pos ≤ i ∧ i < pos + b.length ∧ i < d.length then b[i - pos]? else d[i]? := by
  unfold writeBytes
  have hA : (d.take pos).length = pos := by rw [List.length_take]; omega
  have hB : (b.take (d.length - pos)).length = min (d.length - pos) b.length :=
    List.length_take _ _
  rw [List.getElem?_append, List.getElem?_append, List.length_append, hA, hB]
  by_cases h1 : i < pos
  · rw [if_pos (show i < pos + min (d.length - pos) b.length by omega), if_pos h1,
      List.getElem?_take, if_pos h1, if_neg (by omega)]
  · by_cases h2 : i < pos + b.length ∧ i < d.length
    · rw [if_pos (by omega), if_neg h1, List.getElem?_take, if_pos (by omega),
        if_pos ⟨by omega, h2.1, h2.2⟩]
    · rw [if_neg (by omega), List.getElem?_drop,
        if_neg (fun hcon => h2 ⟨hcon.2.1, hcon.2.2⟩)]
      by_cases h3 : b.length ≤ d.length - pos
      · congr 1
        omega
      · rw [List.getElem?_eq_none (by omega), List.getElem?_eq_none (by omega)]

lemma getD_writeBytes (d : List Nat) (pos : Nat) (b : List Nat) (i : Nat)
    (hd : pos ≤ d.length) :
    (writeBytes d pos b).getD i 0 =
      if pos ≤ i ∧ i < pos + b.length ∧ i < d.length then b.getD (i - pos) 0
      else d.getD i 0 := by
  rw [List.getD_eq_getElem?_getD, getElem?_writeBytes d pos b i hd]
  split <;> rw [← List.getD_eq_getElem?_getD]

lemma u16le_length (n : Nat) : (u16le n).length = 2 := rfl

lemma u64le_length (n : Nat) : (u64le n).length = 8 := rfl

lemma getD_u16le_0 (n : Nat) : (u16le n).getD 0 0 = n % 256 := rfl

lemma getD_u16le_1 (n : Nat) : (u16le n).getD 1 0 = n / 2 ^ 8 % 256 := rfl

lemma writeHeader_data_length (sp : SlottedPage) (h : 12 ≤ sp.data.length) :
    (writeHeader sp).data.length = sp.data.length := by
  have l1 := writeBytes_length sp.data 0 (u64le sp.pageId) (by omega)
  have l2 := writeBytes_length (writeBytes sp.data 0 (u64le sp.pageId)) 8
    (u16le sp.numSlots) (by omega)
  show (writeBytes (writeBytes (writeBytes sp.data 0 (u64le sp.pageId))
    8 (u16le sp.numSlots)) 10 (u16le sp.freeStart)).length = sp.data.length
  rw [writeBytes_length _ _ _ (by omega), l2, l1]

lemma newSlottedPage_data_length (pid : Nat) :
    (newSlottedPage pid).data.length = 16384 := by
  have h : (12 : Nat) ≤ (List.replicate 16384 (0 : Nat)).length := by
    rw [List.length_replicate]
    omega
  have hw := writeHeader_data_length
    { pageId := pid, numSlots := 0, freeStart := 12, freeEnd := 16384,
      data := List.replicate 16384 0 } h
  unfold newSlottedPage
  rw [hw, List.length_replicate]

lemma getD_writeHeader (sp : SlottedPage) (p : Nat) (hp : 12 ≤ p)
    (hd : 12 ≤ sp.data.length) :
    (writeHeader sp).data.getD p 0 = sp.data.getD p 0 := by
  have l1 := writeBytes_length sp.data 0 (u64le sp.pageId) (by omega)
  have l2 := writeBytes_length (writeBytes sp.data 0 (u64le sp.pageId)) 8
    (u16le sp.numSlots) (by omega)
  show (writeBytes (writeBytes (writeBytes sp.data 0 (u64le sp.pageId))
    8 (u16le sp.numSlots)) 10 (u16le sp.freeStart)).getD p 0 = sp.data.getD p 0
  rw [getD_writeBytes _ _ _ _ (by omega),
    if_neg (by rw [u16le_length]; omega),
    getD_writeBytes _ _ _ _ (by omega),
    if_neg (by rw [u16le_length]; omega),
    getD_writeBytes _ _ _ _ (by omega),
    if_neg (by rw [u64le_length]; omega)]

lemma foldr_min_init_comm : ∀ (xs : List Nat) (a b : Nat),
    List.foldr min (min a b) xs = min a (List.foldr min b xs) := by
  intro xs
  induction xs with
  | nil => intro a b; rfl
  | cons x t ih =>
    intro a b
    rw [List.foldr_cons, List.foldr_cons, ih, min_left_comm]

lemma map_range_congr (f g : Nat → Nat) (n : Nat) (h : ∀ i < n, f i = g i) :
    (List.range n).map f = (List.range n).map g := by
  apply List.map_congr_left
  intro i hi
  exact h i (List.mem_range.mp hi)

lemma insertRow_ok_eq (sp : SlottedPage) (rowData : List Nat)
    (hdl : sp.data.length = 16384)
    (hle : sp.freeStart ≤ sp.freeEnd) (hfe : sp.freeEnd ≤ 16384)
    (hL : rowData.length ≤ 65531)
    (hg : rowData.length + 4 ≤ sp.freeEnd - sp.freeStart) :
    insertRow sp rowData = .ok (sp.numSlots, writeHeader
      { sp with
        numSlots := (sp.numSlots + 1) % 2 ^ 16,
        freeStart := (sp.freeStart + 4) % 2 ^ 16,
        freeEnd := sp.freeEnd - rowData.length,
        data := writeBytes (writeBytes
          (writeBytes sp.data (sp.freeEnd - rowData.length) rowData)
          sp.freeStart (u16le (sp.freeEnd - rowData.length)))
          (sp.freeStart + 2) (u16le (rowData.length % 2 ^ 16)) }) := by
  simp only [insertRow]
  rw [show (sp.freeEnd + 2 ^ 16 - rowData.length % 2 ^ 16) % 2 ^ 16 =
      sp.freeEnd - rowData.length from by omega]
  rw [if_neg (show ¬((sp.freeEnd + 2 ^ 16 - sp.freeStart) % 2 ^ 16 <
      (rowData.length % 2 ^ 16 + 4) % 2 ^ 16) from by omega)]
  rw [if_neg (show ¬(sp.data.length < sp.freeEnd - rowData.length) from by omega)]

lemma insertRow_fail_eq (sp : SlottedPage) (rowData : List Nat)
    (hle : sp.freeStart ≤ sp.freeEnd) (hfe : sp.freeEnd ≤ 16384)
    (hL : rowData.length ≤ 65531)
    (hg : ¬ rowData.length + 4 ≤ sp.freeEnd - sp.freeStart) :
    insertRow sp rowData = .error .notEnoughSpace := by
  simp only [insertRow]
  rw [if_pos (show (sp.freeEnd + 2 ^ 16 - sp.freeStart) % 2 ^ 16 <
    (rowData.length % 2 ^ 16 + 4) % 2 ^ 16 from by omega)]

lemma insertRow_reachable_spec (sp : SlottedPage) (rowData : List Nat)
    (hdl : sp.data.length = 16384)
    (hfs : sp.freeStart = 12 + 4 * sp.numSlots)
    (hle : sp.freeStart ≤ sp.freeEnd) (hfe : sp.freeEnd ≤ 16384)
    (hmin : minOffset sp = sp.freeEnd)
    (hL : rowData.length ≤ 65531) :
    ((∃ res, insertRow sp rowData = .ok res) ↔
      rowData.length + 4 ≤ sp.freeEnd - sp.freeStart) ∧
    (¬ rowData.length + 4 ≤ sp.freeEnd - sp.freeStart →
      insertRow sp rowData = .error .notEnoughSpace) ∧
    (∀ slotId sp', insertRow sp rowData = .ok (slotId, sp') →
      slotId = sp.numSlots ∧
      sp'.numSlots = sp.numSlots + 1 ∧
      sp'.freeStart = sp.freeStart + 4 ∧
      sp'.freeEnd = sp.freeEnd - rowData.length ∧
      (∀ j < rowData.length,
        sp'.data.getD (sp.freeEnd - rowData.length + j) 0 = rowData.getD j 0) ∧
      readU16at sp'.data (12 + sp.numSlots * 4) = sp.freeEnd - rowData.length ∧
      readU16at sp'.data (12 + sp.numSlots * 4 + 2) = rowData.length ∧
      sp'.data.length = 16384 ∧
      minOffset sp' = sp'.freeEnd) := by
  by_cases hg : rowData.length + 4 ≤ sp.freeEnd - sp.freeStart
  · have hok := insertRow_ok_eq sp rowData hdl hle hfe hL hg
    have hn : sp.numSlots ≤ 4093 := by omega
    rw [show (sp.numSlots + 1) % 2 ^ 16 = sp.numSlots + 1 from by omega,
      show (sp.freeStart + 4) % 2 ^ 16 = sp.freeStart + 4 from by omega,
      show rowData.length % 2 ^ 16 = rowData.length from by omega] at hok
    refine ⟨⟨fun _ => hg, fun _ => ⟨_, hok⟩⟩, fun h => absurd hg h, ?_⟩
    intro slotId sp' h
    rw [hok] at h
    injection h with h'
    injection h' with h1 h2
    subst h1
    subst h2
    have lD1 := writeBytes_length sp.data (sp.freeEnd - rowData.length) rowData
      (by omega)
    have lD2 := writeBytes_length _ sp.freeStart
      (u16le (sp.freeEnd - rowData.length)) (by rw [lD1]; omega)
    have lD3 := writeBytes_length _ (sp.freeStart + 2)
      (u16le rowData.length) (by rw [lD2, lD1]; omega)
    have hdata : ∀ p, 12 ≤ p →
        (writeHeader
          { sp with
            numSlots := sp.numSlots + 1,
            freeStart := sp.freeStart + 4,
            freeEnd := sp.freeEnd - rowData.length,
            data := writeBytes (writeBytes
              (writeBytes sp.data (sp.freeEnd - rowData.length) rowData)
              sp.freeStart (u16le (sp.freeEnd - rowData.length)))
              (sp.freeStart + 2) (u16le rowData.length) }).data.getD p 0 =
        (writeBytes (writeBytes
            (writeBytes sp.data (sp.freeEnd - rowData.length) rowData)
            sp.freeStart (u16le (sp.freeEnd - rowData.length)))
            (sp.freeStart + 2) (u16le rowData.length)).getD p 0 := by
      intro p hp
      exact getD_writeHeader _ p hp (by rw [lD3, lD2, lD1]; omega)
    have hrow : ∀ j < rowData.length,
        (writeBytes (writeBytes
            (writeBytes sp.data (sp.freeEnd - rowData.length) rowData)
            sp.freeStart (u16le (sp.freeEnd - rowData.length)))
            (sp.freeStart + 2) (u16le rowData.length)).getD
          (sp.freeEnd - rowData.length + j) 0 = rowData.getD j 0 := by
      intro j hj
      rw [getD_writeBytes _ _ _ _ (by rw [lD2, lD1]; omega),
        if_neg (by rw [u16le_length]; omega),
        getD_writeBytes _ _ _ _ (by rw [lD1]; omega),
        if_neg (by rw [u16le_length]; omega),
        getD_writeBytes _ _ _ _ (by omega),
        if_pos ⟨by omega, by omega, by omega⟩]
      congr 1
      omega
    have hslotoff : ∀ q < 2,
        (writeBytes (writeBytes
            (writeBytes sp.data (sp.freeEnd - rowData.length) rowData)
            sp.freeStart (u16le (sp.freeEnd - rowData.length)))
            (sp.freeStart + 2) (u16le rowData.length)).getD
          (sp.freeStart + q) 0 = (u16le (sp.freeEnd - rowData.length)).getD q 0 := by
      intro q hq
      rw [getD_writeBytes _ _ _ _ (by rw [lD2, lD1]; omega),
        if_neg (by rw [u16le_length]; omega),
        getD_writeBytes _ _ _ _ (by rw [lD1]; omega),
        if_pos ⟨by omega, by rw [u16le_length]; omega, by rw [lD1]; omega⟩]
      congr 1
      omega
    have hslotlen : ∀ q < 2,
        (writeBytes (writeBytes
            (writeBytes sp.data (sp.freeEnd - rowData.length) rowData)
            sp.freeStart (u16le (sp.freeEnd - rowData.length)))
            (sp.freeStart + 2) (u16le rowData.length)).getD
          (sp.freeStart + 2 + q) 0 = (u16le rowData.length).getD q 0 := by
      intro q hq
      rw [getD_writeBytes _ _ _ _ (by rw [lD2, lD1]; omega),
        if_pos ⟨by omega, by rw [u16le_length]; omega, by rw [lD2, lD1]; omega⟩]
      congr 1
      omega
    have hold : ∀ p, 12 ≤ p → p < sp.freeStart →
        (writeBytes (writeBytes
            (writeBytes sp.data (sp.freeEnd - rowData.length) rowData)
            sp.freeStart (u16le (sp.freeEnd - rowData.length)))
            (sp.freeStart + 2) (u16le rowData.length)).getD p 0 =
          sp.data.getD p 0 := by
      intro p hp12 hpfs
      rw [getD_writeBytes _ _ _ _ (by rw [lD2, lD1]; omega),
        if_neg (by rw [u16le_length]; omega),
        getD_writeBytes _ _ _ _ (by rw [lD1]; omega),
        if_neg (by rw [u16le_length]; omega),
        getD_writeBytes _ _ _ _ (by omega),
        if_neg (by omega)]
    have hreadoff : readU16at (writeHeader
        { sp with
          numSlots := sp.numSlots + 1,
          freeStart := sp.freeStart + 4,
          freeEnd := sp.freeEnd - rowData.length,
          data := writeBytes (writeBytes
            (writeBytes sp.data (sp.freeEnd - rowData.length) rowData)
            sp.freeStart (u16le (sp.freeEnd - rowData.length)))
            (sp.freeStart + 2) (u16le rowData.length) }).data
        (12 + sp.numSlots * 4) = sp.freeEnd - rowData.length := by
      unfold readU16at
      rw [hdata _ (by omega), hdata _ (by omega)]
      rw [show 12 + sp.numSlots * 4 = sp.freeStart + 0 from by omega,
        show sp.freeStart + 0 + 1 = sp.freeStart + 1 from by omega]
      rw [hslotoff 0 (by omega), hslotoff 1 (by omega)]
      rw [getD_u16le_0, getD_u16le_1]
      omega
    refine ⟨rfl, rfl, rfl, rfl, ?_, hreadoff, ?_, ?_, ?_⟩
    · intro j hj
      rw [hdata _ (by omega)]
      exact hrow j hj
    · show readU16at _ (12 + sp.numSlots * 4 + 2) = _
      unfold readU16at
      rw [hdata _ (by omega), hdata _ (by omega)]
      rw [show 12 + sp.numSlots * 4 + 2 = sp.freeStart + 2 + 0 from by omega,
        show sp.freeStart + 2 + 0 + 1 = sp.freeStart + 2 + 1 from by omega]
      rw [hslotlen 0 (by omega), hslotlen 1 (by omega)]
      rw [getD_u16le_0, getD_u16le_1]
      omega
    · show (writeHeader _).data.length = 16384
      rw [writeHeader_data_length _ (by rw [lD3, lD2, lD1]; omega), lD3, lD2, lD1]
      exact hdl
    · unfold minOffset slotOffsets
      show (List.map _ (List.range (sp.numSlots + 1))).foldr min 16384 =
        sp.freeEnd - rowData.length
      rw [List.range_succ, List.map_append]
      rw [map_range_congr _ (fun i => readU16at sp.data (12 + i * 4)) sp.numSlots ?hcongr]
      case hcongr =>
        intro i hi
        show readU16at _ (12 + i * 4) = readU16at sp.data (12 + i * 4)
        unfold readU16at
        rw [hdata _ (by omega), hdata _ (by omega),
          hold _ (by omega) (by omega), hold _ (by omega) (by omega)]
      rw [show List.map (fun i => readU16at (writeHeader
          { sp with
            numSlots := sp.numSlots + 1,
            freeStart := sp.freeStart + 4,
            freeEnd := sp.freeEnd - rowData.length,
            data := writeBytes (writeBytes
              (writeBytes sp.data (sp.freeEnd - rowData.length) rowData)
              sp.freeStart (u16le (sp.freeEnd - rowData.length)))
              (sp.freeStart + 2) (u16le rowData.length) }).data
          (12 + i * 4)) [sp.numSlots] = [sp.freeEnd - rowData.length] from by
        rw [List.map_cons, List.map_nil, hreadoff]]
      rw [List.foldr_append]
      rw [show List.foldr min 16384 [sp.freeEnd - rowData.length] =
        min (sp.freeEnd - rowData.length) 16384 from rfl]
      rw [foldr_min_init_comm]
      unfold minOffset slotOffsets at hmin
      rw [hmin]
      omega
  · have hfail := insertRow_fail_eq sp rowData hle hfe hL hg
    refine ⟨⟨fun ⟨res, hres⟩ => ?_, fun h => absurd h hg⟩, fun _ => hfail, ?_⟩
    · rw [hfail] at hres
      exact Except.noConfusion hres
    · intro slotId sp' h
      rw [hfail] at h
      exact Except.noConfusion h

lemma reachable_wf (sp : SlottedPage) (h : PageReachable sp) :
    sp.data.length = 16384 ∧ sp.freeStart = 12 + 4 * sp.numSlots ∧
    sp.freeStart ≤ sp.freeEnd ∧ sp.freeEnd ≤ 16384 ∧
    minOffset sp = sp.freeEnd := by
  induction h with
  | fresh pid =>
    refine ⟨newSlottedPage_data_length pid, rfl, ?_, ?_, rfl⟩
    · show (12 : Nat) ≤ 16384
      omega
    · show (16384 : Nat) ≤ 16384
      omega
  | step sp sp' rowData slotId hre hlen hins ih =>
    obtain ⟨a, b, c, d, e⟩ := ih
    obtain ⟨hiff, -, heff⟩ := insertRow_reachable_spec sp rowData a b c d e hlen
    have hg := hiff.mp ⟨_, hins⟩
    obtain ⟨-, h2, h3, h4, -, -, -, h8, h9⟩ := heff slotId sp' hins
    refine ⟨h8, ?_, ?_, ?_, h9⟩
    · rw [h3, h2]
      omega
    · rw [h3, h4]
      omega
    · rw [h4]
      omega

lemma insertRow_pageId (sp : SlottedPage) (rowData : List Nat) (sid : Nat)
    (sp' : SlottedPage) (h : insertRow sp rowData = .ok (sid, sp')) :
    sp'.pageId = sp.pageId := by
  simp only [insertRow] at h
  split at h
  · exact Except.noConfusion h
  · split at h
    · exact Except.noConfusion h
    · injection h with h'
      injection h' with h1 h2
      subst h2
      rfl

lemma getD_append_self {α : Type} (l : List α) (x : α) (d : α) :
    (l ++ [x]).getD l.length d = x := by
  rw [List.getD_eq_getElem?_getD, List.getElem?_append, if_neg (by omega),
    Nat.sub_self]
  rfl

lemma c6_wrap_helper (rowData : List Nat) (h : rowData.length = 65536) :
    (insertRow (newSlottedPage 0) rowData).map
      (fun r => (r.1, r.2.numSlots, r.2.freeStart, r.2.freeEnd)) =
      .ok (0, 1, 16, 16384) ∧
    (newSlottedPage 0).freeEnd - (newSlottedPage 0).freeStart < rowData.length + 4 := by
  constructor
  · simp only [insertRow]
    rw [h, show (newSlottedPage 0).freeEnd = 16384 from rfl,
      show (newSlottedPage 0).freeStart = 12 from rfl,
      newSlottedPage_data_length]
    norm_num [Except.map]
    exact ⟨rfl, rfl, rfl, rfl⟩
  · rw [show (newSlottedPage 0).freeEnd = 16384 from rfl,
      show (newSlottedPage 0).freeStart = 12 from rfl, h]
    omega

/-- C6 counterexample: a 65536-byte payload wraps the uint16 length to
0, so InsertRow spuriously succeeds on a fresh page — consuming a slot,
moving free_start — although the payload is far larger than the free
space (16372 bytes), violating the claimed success condition
free_end − free_start ≥ L + 4. -/

theorem C6_wraparound_counterexample :
    (insertRow (newSlottedPage 0) (List.replicate 65536 0)).map
      (fun r => (r.1, r.2.numSlots, r.2.freeStart, r.2.freeEnd)) =
      .ok (0, 1, 16, 16384) ∧
    (newSlottedPage 0).freeEnd - (newSlottedPage 0).freeStart <
      (List.replicate 65536 (0 : Nat)).length + 4 :=
  c6_wrap_helper (List.replicate 65536 0) (by rw [List.length_replicate])

/-- C6 amended: for pages reachable by inserting payloads within the
uint16-safe bound (at most 65531 bytes), insertion of a row of length
L succeeds exactly when free_end − free_start ≥ L + 4, where free_end
always equals the least stored slot offset (16384 when no slots); on
success the row bytes land at free_end − L, the new slot (offset
free_end − L, length L) is appended at directory position num_slots,
num_slots grows by 1, free_start by 4, and the least-offset invariant
is maintained; on failure the page-full error returns; and the
table-level Insert grows the page list by at most one page, a fresh
page whose page id is the next sequential value. -/

theorem C6_insertRow_semantics :
    (∀ (sp : SlottedPage) (rowData : List Nat),
      PageReachable sp → rowData.length ≤ 65531 →
      minOffset sp = sp.freeEnd ∧
      ((∃ res, insertRow sp rowData = .ok res) ↔
        rowData.length + 4 ≤ sp.freeEnd - sp.freeStart) ∧
      (¬ rowData.length + 4 ≤ sp.freeEnd - sp.freeStart →
        insertRow sp rowData = .error .notEnoughSpace) ∧
      (∀ slotId sp', insertRow sp rowData = .ok (slotId, sp') →
        slotId = sp.numSlots ∧ sp'.numSlots = sp.numSlots + 1 ∧
        sp'.freeStart = sp.freeStart + 4 ∧
        sp'.freeEnd = sp.freeEnd - rowData.length ∧
        (∀ j < rowData.length,
          sp'.data.getD (sp.freeEnd - rowData.length + j) 0 = rowData.getD j 0) ∧
        readU16at sp'.data (12 + sp.numSlots * 4) = sp.freeEnd - rowData.length ∧
        readU16at sp'.data (12 + sp.numSlots * 4 + 2) = rowData.length ∧
        minOffset sp' = sp'.freeEnd)) ∧
    (∀ (F : Nat → List Nat) (t : Table) (row : Row),
      (tableInsert F t row).1.pages.length = t.pages.length ∨
      ((tableInsert F t row).1.pages.length = t.pages.length + 1 ∧
        ((tableInsert F t row).1.pages.getD t.pages.length
          (newSlottedPage 0)).pageId = t.pages.length)) := by
  constructor
  · intro sp rowData hre hL
    obtain ⟨a, b, c, d, e⟩ := reachable_wf sp hre
    obtain ⟨hiff, hfail, heff⟩ := insertRow_reachable_spec sp rowData a b c d e hL
    refine ⟨e, hiff, hfail, ?_⟩
    intro slotId sp' hins
    obtain ⟨h1, h2, h3, h4, h5, h6, h7, -, h9⟩ := heff slotId sp' hins
    exact ⟨h1, h2, h3, h4, h5, h6, h7, h9⟩
  · intro F t row
    unfold tableInsert
    split
    · exact Or.inl rfl
    · split
      · exact Or.inl rfl
      · split
        · split
          · exact Or.inl (by rw [List.length_set])
          · exact Or.inl rfl
        · dsimp only
          split
          · rename_i fst p' hins
            refine Or.inr ⟨by rw [List.length_append]; rfl, ?_⟩
            show ((t.pages ++ [p']).getD t.pages.length (newSlottedPage 0)).pageId =
              t.pages.length
            rw [getD_append_self]
            exact insertRow_pageId _ _ _ _ hins
          · refine Or.inr ⟨by rw [List.length_append]; rfl, ?_⟩
            show ((t.pages ++ [newSlottedPage t.pages.length]).getD t.pages.length
              (newSlottedPage 0)).pageId = t.pages.length
            rw [getD_append_self]
            rfl

end GhostSQL
